import Mathlib

/-!
Verification of the `DjangoCheckpointer` persistence layer and the
`ChatAssistant.get_history` projection of the `ai_workflows` Django app
(`brandtechsolution/ai_workflows/checkpointer.py`, `models.py`, `service.py`).

Python runtime values that flow through the checkpointer are embedded as the
inductive type `PyVal`: JSON scalars, lists/tuples/sets, string-keyed dicts
(Python dict keys in this data model are strings), `datetime` objects,
`collections.ChainMap`, LangChain message objects (`HumanMessage`,
`AIMessage`, `SystemMessage`, `ToolMessage`, other `BaseMessage` subclasses),
and opaque non-JSON-serializable objects carrying their `str()` rendering.

Recursive functions over `PyVal` are written with an explicit fuel parameter
(structural recursion on the fuel) so that every definition reduces inside
the kernel; the exported wrappers instantiate the fuel with `sizeOf`, which
is always sufficient, as the lemmas below establish.

Fallible Python code (a `TypeError` escaping from `"\n".join`, an
`AttributeError` from calling `.get` on a non-mapping, the `ValueError`
raised for a missing `thread_id`) is embedded with `Except String`.
-/

namespace Brantech

/-- The LangChain message class of a `BaseMessage` instance, as discriminated
by the `isinstance` chain in `DjangoCheckpointer._to_jsonable`.  `other t`
stands for any other `BaseMessage` subclass whose `type` attribute is `t`. -/
inductive MsgKind where
  | human
  | ai
  | system
  | tool
  | other (t : String)
deriving DecidableEq

/-- Embedded Python runtime values. -/
inductive PyVal where
  | pnone
  | pbool (b : Bool)
  | pint (n : Int)
  | pstr (s : String)
  | plist (xs : List PyVal)
  | ptuple (xs : List PyVal)
  | pset (xs : List PyVal)
  | pdict (kvs : List (String × PyVal))
  | pdatetime (iso : String)
  | pchain (maps : List (List (String × PyVal)))
  | pmsg (kind : MsgKind) (content : PyVal) (mid mname : Option String)
      (toolCallId : String) (artifact : PyVal) (toolCalls : PyVal)
      (usageMeta : PyVal) (addlKwargs : PyVal)
  | pobj (r : String)

mutual

/-- Structural size of an embedded value, used as (always sufficient) fuel
for the fuel-indexed recursions below. -/
def psize : PyVal → Nat
  | .pnone => 1
  | .pbool _ => 1
  | .pint _ => 1
  | .pstr _ => 1
  | .plist xs => 1 + psizeL xs
  | .ptuple xs => 1 + psizeL xs
  | .pset xs => 1 + psizeL xs
  | .pdict kvs => 1 + psizeKV kvs
  | .pdatetime _ => 1
  | .pchain maps => 1 + psizeMaps maps
  | .pmsg _ c _ _ _ art tcs um ak =>
      1 + psize c + psize art + psize tcs + psize um + psize ak
  | .pobj _ => 1

def psizeL : List PyVal → Nat
  | [] => 1
  | x :: t => 1 + psize x + psizeL t

def psizeKV : List (String × PyVal) → Nat
  | [] => 1
  | kv :: t => 1 + psize kv.2 + psizeKV t

def psizeMaps : List (List (String × PyVal)) → Nat
  | [] => 1
  | m :: t => 1 + psizeKV m + psizeMaps t

end

/-- `d.get(k)` on a Python dict (dict keys are unique, so first match). -/
def pyGet (kvs : List (String × PyVal)) (k : String) : Option PyVal :=
  List.lookup k kvs

/-- `d.get(k, dflt)`. -/
def pyGetD (kvs : List (String × PyVal)) (k : String) (dflt : PyVal) : PyVal :=
  (pyGet kvs k).getD dflt

/-- `{**d, k: v}` / `d[k] = v`: replace the binding of `k` in place if
present, otherwise append it. -/
def pdictSet : List (String × PyVal) → String → PyVal → List (String × PyVal)
  | [], k, v => [(k, v)]
  | (k1, v1) :: rest, k, v =>
      if k1 = k then (k, v) :: rest else (k1, v1) :: pdictSet rest k v

/-- Python `d.update(e)`. -/
def pdictUpdate (d e : List (String × PyVal)) : List (String × PyVal) :=
  e.foldl (fun acc kv => pdictSet acc kv.1 kv.2) d

/-- `dict(ChainMap(m1, ..., mk))`: an empty dict updated with the maps in
reverse order, so that earlier maps win, exactly as `ChainMap` lookup does. -/
def chainDict (maps : List (List (String × PyVal))) : List (String × PyVal) :=
  maps.reverse.foldl pdictUpdate []

theorem mem_pdictSet {x : String × PyVal} {d k v} (h : x ∈ pdictSet d k v) :
    x = (k, v) ∨ x ∈ d := by
  induction d with
  | nil => simp [pdictSet] at h; simp [h]
  | cons a rest ih =>
      by_cases hk : a.1 = k
      · simp [pdictSet, hk] at h
        rcases h with h | h
        · exact Or.inl h
        · exact Or.inr (List.mem_cons_of_mem _ h)
      · obtain ⟨a1, a2⟩ := a
        simp only [pdictSet, if_neg hk] at h
        rcases List.mem_cons.mp h with h | h
        · exact Or.inr (by simp [h])
        · rcases ih h with h | h
          · exact Or.inl h
          · exact Or.inr (List.mem_cons_of_mem _ h)

theorem mem_pdictUpdate {x : String × PyVal} {d e} (h : x ∈ pdictUpdate d e) :
    x ∈ d ∨ x ∈ e := by
  induction e generalizing d with
  | nil => exact Or.inl h
  | cons a rest ih =>
      simp only [pdictUpdate, List.foldl_cons] at h
      rcases ih h with h | h
      · rcases mem_pdictSet h with h | h
        · right; simp [h]
        · exact Or.inl h
      · right; exact List.mem_cons_of_mem _ h

theorem mem_chainDict {x : String × PyVal} {maps} (h : x ∈ chainDict maps) :
    ∃ m ∈ maps, x ∈ m := by
  suffices H : ∀ (ms : List (List (String × PyVal))) (init : List (String × PyVal)),
      x ∈ ms.foldl pdictUpdate init → x ∈ init ∨ ∃ m ∈ ms, x ∈ m by
    rcases H maps.reverse [] h with h | ⟨m, hm, hx⟩
    · simp at h
    · exact ⟨m, List.mem_reverse.mp hm, hx⟩
  intro ms
  induction ms with
  | nil => intro init h; exact Or.inl h
  | cons a rest ih =>
      intro init h
      rcases ih _ h with h | ⟨m, hm, hx⟩
      · rcases mem_pdictUpdate h with h | h
        · exact Or.inl h
        · exact Or.inr ⟨a, List.mem_cons_self _ _, h⟩
      · exact Or.inr ⟨m, List.mem_cons_of_mem _ hm, hx⟩

/-- Python truthiness (`bool(x)`) of an embedded value. -/
def pyTruthy : PyVal → Bool
  | .pnone => false
  | .pbool b => b
  | .pint n => n != 0
  | .pstr s => s != ""
  | .plist xs => !xs.isEmpty
  | .ptuple xs => !xs.isEmpty
  | .pset xs => !xs.isEmpty
  | .pdict kvs => !kvs.isEmpty
  | .pdatetime _ => true
  | .pchain maps => maps.any (fun m => !m.isEmpty)
  | .pmsg .. => true
  | .pobj _ => true

/-- Fuel-indexed rendering of `str(x)`/`repr(x)` for embedded values.  The
exact text for compound values is irrelevant to every claim (only its
stringness is observable); strings render without quotes at top level and
with quotes when nested, as in Python. -/
def pyReprF : Nat → PyVal → String
  | 0, _ => "..."
  | n+1, v =>
    match v with
    | .pnone => "None"
    | .pbool b => if b then "True" else "False"
    | .pint k => toString k
    | .pstr s => "\x27" ++ s ++ "\x27"
    | .plist xs => "[" ++ String.intercalate ", " (xs.map (pyReprF n)) ++ "]"
    | .ptuple xs => "(" ++ String.intercalate ", " (xs.map (pyReprF n)) ++ ")"
    | .pset xs =>
        if xs.isEmpty then "set()"
        else "\x7b" ++ String.intercalate ", " (xs.map (pyReprF n)) ++ "\x7d"
    | .pdict kvs =>
        "\x7b" ++ String.intercalate ", "
          (kvs.map (fun kv => "\x27" ++ kv.1 ++ "\x27: " ++ pyReprF n kv.2)) ++ "\x7d"
    | .pdatetime iso => iso
    | .pchain maps =>
        "ChainMap(" ++ String.intercalate ", "
          (maps.map (fun m => pyReprF n (.pdict m))) ++ ")"
    | .pmsg _ c _ _ _ _ _ _ _ => "Message(content=" ++ pyReprF n c ++ ")"
    | .pobj r => r

/-- `repr(x)` (nested rendering). -/
def pyRepr (v : PyVal) : String := pyReprF (psize v) v

/-- `str(x)`. -/
def pyStr : PyVal → String
  | .pstr s => s
  | v => pyRepr v

/-- The `text_parts` accumulator of the list-content branch of
`_to_jsonable` (and of `get_history`): keep `part["text"]` for dict parts
that have a `"text"` key, keep string parts, skip everything else. -/
def extractTexts : List PyVal → List PyVal
  | [] => []
  | p :: rest =>
      match p with
      | .pdict d =>
          match List.lookup "text" d with
          | some t => t :: extractTexts rest
          | none => extractTexts rest
      | .pstr s => .pstr s :: extractTexts rest
      | _ => extractTexts rest

/-- `"\n".join` demands every item be a `str`, else `TypeError`. -/
def strOfPy : PyVal → Except String String
  | .pstr s => .ok s
  | _ => .error "TypeError: sequence item: expected str instance"

/-- Effectful map over a list (a Python `for` loop that may raise). -/
def exMapM {α β : Type} (f : α → Except String β) : List α → Except String (List β)
  | [] => .ok []
  | a :: t => do
    let b ← f a
    let bs ← exMapM f t
    .ok (b :: bs)

/-- Effectful map over the values of a dict (a Python dict comprehension
`{k: f(v) for k, v in d.items()}` whose body may raise); keys pass through
unconverted, exactly as in `_to_jsonable`. -/
def exMapKV (f : PyVal → Except String PyVal) :
    List (String × PyVal) → Except String (List (String × PyVal))
  | [] => .ok []
  | kv :: t => do
    let w ← f kv.2
    let ws ← exMapKV f t
    .ok ((kv.1, w) :: ws)

/-- The content normalisation of `_to_jsonable` for message objects:
list content (Gemini format) is flattened to the newline-join of its text
parts, falling back to `str(content)` when no text part is found; any other
content is passed through unchanged. -/
def extractContent : PyVal → Except String PyVal
  | .plist parts =>
      let ts := extractTexts parts
      if ts.isEmpty then .ok (.pstr (pyRepr (.plist parts)))
      else do
        let ss ← exMapM strOfPy ts
        .ok (.pstr (String.intercalate "\n" ss))
  | c => .ok c

/-- The `msg_type` string assigned by the `isinstance` chain. -/
def kindStr : MsgKind → String
  | .human => "human"
  | .ai => "ai"
  | .system => "system"
  | .tool => "tool"
  | .other t => t

/-- `getattr(obj, "id"/"name", None)` serialised into the message dict. -/
def optStr : Option String → PyVal
  | some s => .pstr s
  | none => .pnone

/-- A serialized-message field added only when its guard holds: the
`if obj.artifact: serialized["artifact"] = self._to_jsonable(obj.artifact)`
pattern of `_to_jsonable` (also used for `tool_calls`, `usage_metadata` and
`additional_kwargs`). -/
def optJsonPart (J : PyVal → Except String PyVal) (cond : Bool) (key : String)
    (x : PyVal) : Except String (List (String × PyVal)) :=
  if cond then do
    let a ← J x
    pure [(key, a)]
  else pure []

/-- The `isinstance(obj, ToolMessage)` block of `_to_jsonable`:
`tool_call_id` is always serialized, `artifact` only when truthy. -/
def toolPartOf (J : PyVal → Except String PyVal) (kind : MsgKind)
    (tci : String) (art : PyVal) : Except String (List (String × PyVal)) :=
  if kind = MsgKind.tool then do
    let ap ← optJsonPart J (pyTruthy art) "artifact" art
    pure (("tool_call_id", PyVal.pstr tci) :: ap)
  else pure []

/-- The `isinstance(obj, AIMessage)` block of `_to_jsonable`: `tool_calls`
and `usage_metadata` are serialized when truthy. -/
def aiPartOf (J : PyVal → Except String PyVal) (kind : MsgKind)
    (tcs um : PyVal) : Except String (List (String × PyVal)) :=
  if kind = MsgKind.ai then do
    let p1 ← optJsonPart J (pyTruthy tcs) "tool_calls" tcs
    let p2 ← optJsonPart J (pyTruthy um) "usage_metadata" um
    pure (p1 ++ p2)
  else pure []

/-- Fuel-indexed embedding of `DjangoCheckpointer._to_jsonable`.  The branch
order follows the source: message objects, `ChainMap`, `dict`,
`list`/`tuple`/`set`, `datetime`, then the `json.dumps` probe, which accepts
the JSON scalars and falls back to `str(obj)` for anything else. -/
def toJsonF : Nat → PyVal → Except String PyVal
  | 0, _ => .error "fuel"
  | n+1, v =>
    match v with
    | .pmsg kind content mid mname tci art tcs um ak => do
        let c ← extractContent content
        let toolPart ← toolPartOf (toJsonF n) kind tci art
        let aiPart ← aiPartOf (toJsonF n) kind tcs um
        let akPart ← optJsonPart (toJsonF n) (pyTruthy ak) "additional_kwargs" ak
        .ok (.pdict ([("type", PyVal.pstr (kindStr kind)), ("content", c),
          ("id", optStr mid), ("name", optStr mname)]
          ++ toolPart ++ aiPart ++ akPart))
    | .pchain maps => do
        let ys ← exMapKV (toJsonF n) (chainDict maps)
        .ok (.pdict ys)
    | .pdict kvs => do
        let ys ← exMapKV (toJsonF n) kvs
        .ok (.pdict ys)
    | .plist xs => do
        let ys ← exMapM (toJsonF n) xs
        .ok (.plist ys)
    | .ptuple xs => do
        let ys ← exMapM (toJsonF n) xs
        .ok (.plist ys)
    | .pset xs => do
        let ys ← exMapM (toJsonF n) xs
        .ok (.plist ys)
    | .pdatetime iso => .ok (.pstr iso)
    | .pnone => .ok .pnone
    | .pbool b => .ok (.pbool b)
    | .pint k => .ok (.pint k)
    | .pstr s => .ok (.pstr s)
    | .pobj r => .ok (.pstr r)

/-- `DjangoCheckpointer._to_jsonable`; `psize` is always enough fuel, as
`toJsonF_congr` below establishes. -/
def toJson (v : PyVal) : Except String PyVal := toJsonF (psize v) v

theorem one_le_psize (v : PyVal) : 1 ≤ psize v := by
  cases v <;> (simp [psize]; try omega)

theorem psize_lt_of_mem {x : PyVal} {xs : List PyVal} (h : x ∈ xs) :
    psize x < psizeL xs := by
  induction xs with
  | nil => simp at h
  | cons a t ih =>
      rcases List.mem_cons.mp h with h | h
      · subst h; simp [psizeL]; omega
      · have := ih h; simp [psizeL]; omega

theorem psize_lt_of_memKV {kv : String × PyVal} {kvs : List (String × PyVal)}
    (h : kv ∈ kvs) : psize kv.2 < psizeKV kvs := by
  induction kvs with
  | nil => simp at h
  | cons a t ih =>
      rcases List.mem_cons.mp h with h | h
      · subst h; simp [psizeKV]; omega
      · have := ih h; simp [psizeKV]; omega

theorem psizeKV_lt_of_mem {m : List (String × PyVal)}
    {maps : List (List (String × PyVal))} (h : m ∈ maps) :
    psizeKV m < psizeMaps maps := by
  induction maps with
  | nil => simp at h
  | cons a t ih =>
      rcases List.mem_cons.mp h with h | h
      · subst h; simp [psizeMaps]; omega
      · have := ih h; simp [psizeMaps]; omega

theorem psize_lt_of_mem_chainDict {kv : String × PyVal}
    {maps : List (List (String × PyVal))} (h : kv ∈ chainDict maps) :
    psize kv.2 < psize (.pchain maps) := by
  obtain ⟨m, hm, hkv⟩ := mem_chainDict h
  have h1 := psize_lt_of_memKV hkv
  have h2 := psizeKV_lt_of_mem hm
  simp [psize]; omega

theorem exMapM_congr {α β : Type} {f g : α → Except String β} {l : List α}
    (h : ∀ x ∈ l, f x = g x) : exMapM f l = exMapM g l := by
  induction l with
  | nil => rfl
  | cons a t ih =>
      simp only [exMapM]
      rw [h a (List.mem_cons_self a t),
        ih (fun x hx => h x (List.mem_cons_of_mem a hx))]

theorem exMapKV_congr {f g : PyVal → Except String PyVal}
    {l : List (String × PyVal)} (h : ∀ kv ∈ l, f kv.2 = g kv.2) :
    exMapKV f l = exMapKV g l := by
  induction l with
  | nil => rfl
  | cons a t ih =>
      simp only [exMapKV]
      rw [h a (List.mem_cons_self a t),
        ih (fun x hx => h x (List.mem_cons_of_mem a hx))]

theorem optJsonPart_congr {J1 J2 : PyVal → Except String PyVal} {cond : Bool}
    {key : String} {x : PyVal} (h : J1 x = J2 x) :
    optJsonPart J1 cond key x = optJsonPart J2 cond key x := by
  unfold optJsonPart
  rw [h]

theorem toolPartOf_congr {J1 J2 : PyVal → Except String PyVal} {kind : MsgKind}
    {tci : String} {art : PyVal} (h : J1 art = J2 art) :
    toolPartOf J1 kind tci art = toolPartOf J2 kind tci art := by
  unfold toolPartOf
  rw [optJsonPart_congr h]

theorem aiPartOf_congr {J1 J2 : PyVal → Except String PyVal} {kind : MsgKind}
    {tcs um : PyVal} (h1 : J1 tcs = J2 tcs) (h2 : J1 um = J2 um) :
    aiPartOf J1 kind tcs um = aiPartOf J2 kind tcs um := by
  unfold aiPartOf
  rw [optJsonPart_congr h1, optJsonPart_congr h2]

/-- The result of `_to_jsonable` does not depend on the fuel, provided the
fuel is at least `psize`; in particular `toJson` computes the function the
source defines. -/
theorem toJsonF_congr : ∀ n m (v : PyVal), psize v ≤ n → psize v ≤ m →
    toJsonF n v = toJsonF m v := by
  intro n
  induction n with
  | zero =>
      intro m v hn _
      have := one_le_psize v
      omega
  | succ n ih =>
      intro m v hn hm
      have hv1 := one_le_psize v
      obtain ⟨m', rfl⟩ : ∃ m', m = m' + 1 := ⟨m - 1, by omega⟩
      cases v with
      | pnone => rfl
      | pbool b => rfl
      | pint k => rfl
      | pstr s => rfl
      | pdatetime iso => rfl
      | pobj r => rfl
      | plist xs =>
          have hsz : psizeL xs ≤ n := by simp [psize] at hn; omega
          have hsz2 : psizeL xs ≤ m' := by simp [psize] at hm; omega
          simp only [toJsonF]
          rw [exMapM_congr (fun x hx => ih m' x
            (by have := psize_lt_of_mem hx; omega)
            (by have := psize_lt_of_mem hx; omega))]
      | ptuple xs =>
          have hsz : psizeL xs ≤ n := by simp [psize] at hn; omega
          have hsz2 : psizeL xs ≤ m' := by simp [psize] at hm; omega
          simp only [toJsonF]
          rw [exMapM_congr (fun x hx => ih m' x
            (by have := psize_lt_of_mem hx; omega)
            (by have := psize_lt_of_mem hx; omega))]
      | pset xs =>
          have hsz : psizeL xs ≤ n := by simp [psize] at hn; omega
          have hsz2 : psizeL xs ≤ m' := by simp [psize] at hm; omega
          simp only [toJsonF]
          rw [exMapM_congr (fun x hx => ih m' x
            (by have := psize_lt_of_mem hx; omega)
            (by have := psize_lt_of_mem hx; omega))]
      | pdict kvs =>
          have hsz : psizeKV kvs ≤ n := by simp [psize] at hn; omega
          have hsz2 : psizeKV kvs ≤ m' := by simp [psize] at hm; omega
          simp only [toJsonF]
          rw [exMapKV_congr (fun kv hkv =>
            ih m' kv.2
              (by have := psize_lt_of_memKV hkv; omega)
              (by have := psize_lt_of_memKV hkv; omega))]
      | pchain maps =>
          simp only [toJsonF]
          rw [exMapKV_congr (fun kv hkv => by
            have hlt := psize_lt_of_mem_chainDict hkv
            simp [psize] at hlt hn hm
            exact ih m' kv.2 (by omega) (by omega))]
      | pmsg kind content mid mname tci art tcs um ak =>
          have hb : psize art ≤ n ∧ psize tcs ≤ n ∧ psize um ≤ n ∧
              psize ak ≤ n := by simp [psize] at hn; omega
          have hb2 : psize art ≤ m' ∧ psize tcs ≤ m' ∧ psize um ≤ m' ∧
              psize ak ≤ m' := by simp [psize] at hm; omega
          simp only [toJsonF]
          rw [toolPartOf_congr (ih m' art hb.1 hb2.1),
            aiPartOf_congr (ih m' tcs hb.2.1 hb2.2.1) (ih m' um hb.2.2.1 hb2.2.2.1),
            optJsonPart_congr (ih m' ak hb.2.2.2 hb2.2.2.2)]

/-- JSON-safe values: exactly the shapes `_to_jsonable` can output. -/
inductive IsJson : PyVal → Prop where
  | pnone : IsJson .pnone
  | pbool (b : Bool) : IsJson (.pbool b)
  | pint (n : Int) : IsJson (.pint n)
  | pstr (s : String) : IsJson (.pstr s)
  | plist (xs : List PyVal) (h : ∀ x ∈ xs, IsJson x) : IsJson (.plist xs)
  | pdict (kvs : List (String × PyVal)) (h : ∀ kv ∈ kvs, IsJson (Prod.snd kv)) :
      IsJson (.pdict kvs)

/-- A message's `content` attribute has the type LangChain declares for it
(`Union[str, list]`); pydantic validation enforces this on construction. -/
def wtOkContent : PyVal → Bool
  | .pstr _ => true
  | .plist _ => true
  | _ => false

/-- Fuel-indexed well-typedness: every message object occurring anywhere in
the value has `str`-or-`list` content.  Fuel recursion mirrors `toJsonF`. -/
def wtF : Nat → PyVal → Bool
  | 0, _ => false
  | n+1, v =>
    match v with
    | .pnone => true
    | .pbool _ => true
    | .pint _ => true
    | .pstr _ => true
    | .pdatetime _ => true
    | .pobj _ => true
    | .plist xs => xs.all (wtF n)
    | .ptuple xs => xs.all (wtF n)
    | .pset xs => xs.all (wtF n)
    | .pdict kvs => kvs.all (fun kv => wtF n kv.2)
    | .pchain maps => maps.all (fun m => m.all (fun kv => wtF n kv.2))
    | .pmsg _ content _ _ _ art tcs um ak =>
        wtOkContent content && wtF n art && wtF n tcs && wtF n um && wtF n ak

/-- Well-typedness of a value (instantiated with sufficient fuel). -/
def wt (v : PyVal) : Bool := wtF (psize v) v

theorem ex_bind_ok {ε α β : Type} (a : α) (f : α → Except ε β) :
    (Except.ok a >>= f) = f a := rfl

theorem ex_bind_err {ε α β : Type} (e : ε) (f : α → Except ε β) :
    ((Except.error e : Except ε α) >>= f) = Except.error e := rfl

theorem ex_pure {ε α : Type} (a : α) :
    (pure a : Except ε α) = Except.ok a := rfl

theorem exMapM_ok_mem {α β : Type} {f : α → Except String β} :
    ∀ {l : List α} {ys : List β}, exMapM f l = .ok ys →
      ∀ b ∈ ys, ∃ a ∈ l, f a = .ok b := by
  intro l
  induction l with
  | nil =>
      intro ys h b hb
      simp only [exMapM] at h
      cases h
      simp at hb
  | cons a t ih =>
      intro ys h b hb
      simp only [exMapM] at h
      cases h1 : f a with
      | error e =>
          simp only [h1, ex_bind_err] at h
          exact Except.noConfusion h
      | ok b1 =>
          simp only [h1] at h
          cases h2 : exMapM f t with
          | error e =>
              simp only [h1, ex_bind_ok, h2, ex_bind_err] at h
              exact Except.noConfusion h
          | ok bs =>
              simp only [h1, ex_bind_ok, h2, Except.ok.injEq] at h
              subst h
              rcases List.mem_cons.mp hb with hb | hb
              · exact ⟨a, List.mem_cons_self a t, by rw [h1, hb]⟩
              · obtain ⟨a1, ha1, hfa⟩ := ih h2 b hb
                exact ⟨a1, List.mem_cons_of_mem a ha1, hfa⟩

theorem exMapM_ok_id {α : Type} {f : α → Except String α} :
    ∀ {l : List α}, (∀ x ∈ l, f x = .ok x) → exMapM f l = .ok l := by
  intro l
  induction l with
  | nil => intro _; rfl
  | cons a t ih =>
      intro h
      simp only [exMapM, h a (List.mem_cons_self a t),
        ih (fun x hx => h x (List.mem_cons_of_mem a hx))]
      rfl

theorem exMapKV_ok_mem {f : PyVal → Except String PyVal} :
    ∀ {l ys : List (String × PyVal)}, exMapKV f l = .ok ys →
      ∀ kv1 ∈ ys, ∃ kv ∈ l, kv1.1 = kv.1 ∧ f kv.2 = .ok kv1.2 := by
  intro l
  induction l with
  | nil =>
      intro ys h kv1 hkv1
      simp only [exMapKV] at h
      cases h
      simp at hkv1
  | cons a t ih =>
      intro ys h kv1 hkv1
      simp only [exMapKV] at h
      cases h1 : f a.2 with
      | error e =>
          simp only [h1, ex_bind_err] at h
          exact Except.noConfusion h
      | ok w =>
          simp only [h1] at h
          cases h2 : exMapKV f t with
          | error e =>
              simp only [h1, ex_bind_ok, h2, ex_bind_err] at h
              exact Except.noConfusion h
          | ok bs =>
              simp only [h1, ex_bind_ok, h2, Except.ok.injEq] at h
              subst h
              rcases List.mem_cons.mp hkv1 with hb | hb
              · subst hb
                exact ⟨a, List.mem_cons_self a t, rfl, h1⟩
              · obtain ⟨kv, hkv, h3, h4⟩ := ih h2 kv1 hb
                exact ⟨kv, List.mem_cons_of_mem a hkv, h3, h4⟩

theorem exMapKV_ok_id {f : PyVal → Except String PyVal} :
    ∀ {l : List (String × PyVal)}, (∀ kv ∈ l, f kv.2 = .ok kv.2) →
      exMapKV f l = .ok l := by
  intro l
  induction l with
  | nil => intro _; rfl
  | cons a t ih =>
      intro h
      simp only [exMapKV, h a (List.mem_cons_self a t),
        ih (fun x hx => h x (List.mem_cons_of_mem a hx))]
      rfl

theorem extractContent_shape {c d : PyVal} (hc : wtOkContent c = true)
    (h : extractContent c = .ok d) : (∃ s, d = .pstr s) := by
  cases c with
  | pstr s =>
      simp only [extractContent] at h
      cases h
      exact ⟨s, rfl⟩
  | plist parts =>
      simp only [extractContent] at h
      by_cases he : (extractTexts parts).isEmpty = true
      · rw [if_pos he] at h
        cases h
        exact ⟨_, rfl⟩
      · rw [if_neg he] at h
        cases hm : exMapM strOfPy (extractTexts parts) with
        | error e =>
            rw [hm, ex_bind_err] at h
            exact Except.noConfusion h
        | ok ss =>
            rw [hm, ex_bind_ok] at h
            cases h
            exact ⟨_, rfl⟩
  | pnone => simp [wtOkContent] at hc
  | pbool b => simp [wtOkContent] at hc
  | pint n => simp [wtOkContent] at hc
  | ptuple xs => simp [wtOkContent] at hc
  | pset xs => simp [wtOkContent] at hc
  | pdict kvs => simp [wtOkContent] at hc
  | pdatetime iso => simp [wtOkContent] at hc
  | pchain maps => simp [wtOkContent] at hc
  | pmsg k c mid mname tci art tcs um ak => simp [wtOkContent] at hc
  | pobj r => simp [wtOkContent] at hc

theorem optPart_okGen {J : PyVal → Except String PyVal} {cond : Bool}
    {x : PyVal} {key : String} {part : List (String × PyVal)}
    (h : optJsonPart J cond key x = .ok part) :
    part = [] ∨ ∃ a, J x = .ok a ∧ part = [(key, a)] := by
  unfold optJsonPart at h
  by_cases hc : cond = true
  · rw [if_pos hc] at h
    cases h1 : J x with
    | error e =>
        rw [h1, ex_bind_err] at h
        exact Except.noConfusion h
    | ok a =>
        rw [h1, ex_bind_ok, ex_pure] at h
        cases h
        exact Or.inr ⟨a, rfl, rfl⟩
  · rw [if_neg hc] at h
    rw [ex_pure] at h
    cases h
    exact Or.inl rfl

theorem optJsonPart_vals {J : PyVal → Except String PyVal} {cond : Bool}
    {key : String} {x : PyVal} {part : List (String × PyVal)}
    (h : optJsonPart J cond key x = .ok part) :
    ∀ kv ∈ part, J x = .ok kv.2 := by
  intro kv hkv
  rcases optPart_okGen h with h | ⟨a, ha, rfl⟩
  · subst h; simp at hkv
  · simp at hkv
    subst hkv
    exact ha

theorem toolPartOf_vals {J : PyVal → Except String PyVal} {kind : MsgKind}
    {tci : String} {art : PyVal} {tp : List (String × PyVal)}
    (h : toolPartOf J kind tci art = .ok tp) :
    ∀ kv ∈ tp, kv.2 = .pstr tci ∨ J art = .ok kv.2 := by
  intro kv hkv
  unfold toolPartOf at h
  by_cases hk : kind = MsgKind.tool
  · rw [if_pos hk] at h
    cases h1 : optJsonPart J (pyTruthy art) "artifact" art with
    | error e =>
        rw [h1, ex_bind_err] at h
        exact Except.noConfusion h
    | ok ap =>
        rw [h1, ex_bind_ok, ex_pure] at h
        cases h
        rcases List.mem_cons.mp hkv with hkv | hkv
        · subst hkv; exact Or.inl rfl
        · exact Or.inr (optJsonPart_vals h1 kv hkv)
  · rw [if_neg hk, ex_pure] at h
    cases h
    simp at hkv

theorem aiPartOf_vals {J : PyVal → Except String PyVal} {kind : MsgKind}
    {tcs um : PyVal} {l : List (String × PyVal)}
    (h : aiPartOf J kind tcs um = .ok l) :
    ∀ kv ∈ l, J tcs = .ok kv.2 ∨ J um = .ok kv.2 := by
  intro kv hkv
  unfold aiPartOf at h
  by_cases hk : kind = MsgKind.ai
  · rw [if_pos hk] at h
    cases h1 : optJsonPart J (pyTruthy tcs) "tool_calls" tcs with
    | error e =>
        rw [h1, ex_bind_err] at h
        exact Except.noConfusion h
    | ok p1 =>
        rw [h1, ex_bind_ok] at h
        cases h2 : optJsonPart J (pyTruthy um) "usage_metadata" um with
        | error e =>
            rw [h2, ex_bind_err] at h
            exact Except.noConfusion h
        | ok p2 =>
            rw [h2, ex_bind_ok, ex_pure] at h
            cases h
            rcases List.mem_append.mp hkv with hkv | hkv
            · exact Or.inl (optJsonPart_vals h1 kv hkv)
            · exact Or.inr (optJsonPart_vals h2 kv hkv)
  · rw [if_neg hk, ex_pure] at h
    cases h
    simp at hkv

theorem isJson_optStr (o : Option String) : IsJson (optStr o) := by
  cases o with
  | none => exact IsJson.pnone
  | some s => exact IsJson.pstr s

/-- Everything `_to_jsonable` outputs on a well-typed input is JSON-safe. -/
theorem toJsonF_isJson : ∀ (n : Nat) (v y : PyVal), wtF n v = true →
    toJsonF n v = .ok y → IsJson y := by
  intro n
  induction n with
  | zero => intro v y hw _; simp [wtF] at hw
  | succ n ih =>
      intro v y hw hj
      cases v with
      | pnone => cases hj; exact IsJson.pnone
      | pbool b => cases hj; exact IsJson.pbool b
      | pint k => cases hj; exact IsJson.pint k
      | pstr s => cases hj; exact IsJson.pstr s
      | pdatetime iso => cases hj; exact IsJson.pstr iso
      | pobj r => cases hj; exact IsJson.pstr r
      | plist xs =>
          simp only [toJsonF] at hj
          cases hm : exMapM (toJsonF n) xs with
          | error e =>
              rw [hm, ex_bind_err] at hj
              exact Except.noConfusion hj
          | ok ys =>
              rw [hm, ex_bind_ok] at hj
              cases hj
              refine IsJson.plist ys (fun x hx => ?hl)
              obtain ⟨a, ha, hfa⟩ := exMapM_ok_mem hm x hx
              have hwa : wtF n a = true := by
                simp only [wtF, List.all_eq_true] at hw
                exact hw a ha
              exact ih a x hwa hfa
      | ptuple xs =>
          simp only [toJsonF] at hj
          cases hm : exMapM (toJsonF n) xs with
          | error e =>
              rw [hm, ex_bind_err] at hj
              exact Except.noConfusion hj
          | ok ys =>
              rw [hm, ex_bind_ok] at hj
              cases hj
              refine IsJson.plist ys (fun x hx => ?ht)
              obtain ⟨a, ha, hfa⟩ := exMapM_ok_mem hm x hx
              have hwa : wtF n a = true := by
                simp only [wtF, List.all_eq_true] at hw
                exact hw a ha
              exact ih a x hwa hfa
      | pset xs =>
          simp only [toJsonF] at hj
          cases hm : exMapM (toJsonF n) xs with
          | error e =>
              rw [hm, ex_bind_err] at hj
              exact Except.noConfusion hj
          | ok ys =>
              rw [hm, ex_bind_ok] at hj
              cases hj
              refine IsJson.plist ys (fun x hx => ?hs)
              obtain ⟨a, ha, hfa⟩ := exMapM_ok_mem hm x hx
              have hwa : wtF n a = true := by
                simp only [wtF, List.all_eq_true] at hw
                exact hw a ha
              exact ih a x hwa hfa
      | pdict kvs =>
          simp only [toJsonF] at hj
          cases hm : exMapKV (toJsonF n) kvs with
          | error e =>
              rw [hm, ex_bind_err] at hj
              exact Except.noConfusion hj
          | ok ys =>
              rw [hm, ex_bind_ok] at hj
              cases hj
              refine IsJson.pdict ys (fun kv hkv => ?hd)
              obtain ⟨kv0, hkv0, _, hfa⟩ := exMapKV_ok_mem hm kv hkv
              have hwa : wtF n kv0.2 = true := by
                simp only [wtF, List.all_eq_true] at hw
                exact hw kv0 hkv0
              exact ih kv0.2 kv.2 hwa hfa
      | pchain maps =>
          simp only [toJsonF] at hj
          cases hm : exMapKV (toJsonF n) (chainDict maps) with
          | error e =>
              rw [hm, ex_bind_err] at hj
              exact Except.noConfusion hj
          | ok ys =>
              rw [hm, ex_bind_ok] at hj
              cases hj
              refine IsJson.pdict ys (fun kv hkv => ?hc)
              obtain ⟨kv0, hkv0, _, hfa⟩ := exMapKV_ok_mem hm kv hkv
              obtain ⟨m, hmm, hkvm⟩ := mem_chainDict hkv0
              have hwa : wtF n kv0.2 = true := by
                simp only [wtF, List.all_eq_true] at hw
                exact hw m hmm kv0 hkvm
              exact ih kv0.2 kv.2 hwa hfa
      | pmsg kind content mid mname tci art tcs um ak =>
          have hw5 : wtOkContent content = true ∧ wtF n art = true ∧
              wtF n tcs = true ∧ wtF n um = true ∧ wtF n ak = true := by
            simp only [wtF, Bool.and_eq_true] at hw
            exact ⟨hw.1.1.1.1, hw.1.1.1.2, hw.1.1.2, hw.1.2, hw.2⟩
          simp only [toJsonF] at hj
          cases h1 : extractContent content with
          | error e =>
              rw [h1, ex_bind_err] at hj
              exact Except.noConfusion hj
          | ok c =>
              rw [h1, ex_bind_ok] at hj
              cases h2 : toolPartOf (toJsonF n) kind tci art with
              | error e =>
                  rw [h2, ex_bind_err] at hj
                  exact Except.noConfusion hj
              | ok tp =>
                  rw [h2, ex_bind_ok] at hj
                  cases h3 : aiPartOf (toJsonF n) kind tcs um with
                  | error e =>
                      rw [h3, ex_bind_err] at hj
                      exact Except.noConfusion hj
                  | ok ap =>
                      rw [h3, ex_bind_ok] at hj
                      cases h4 : optJsonPart (toJsonF n) (pyTruthy ak)
                          "additional_kwargs" ak with
                      | error e =>
                          rw [h4, ex_bind_err] at hj
                          exact Except.noConfusion hj
                      | ok kp =>
                          rw [h4, ex_bind_ok] at hj
                          cases hj
                          obtain ⟨cs, rfl⟩ := extractContent_shape hw5.1 h1
                          refine IsJson.pdict _ (fun kv hkv => ?hm)
                          rcases List.mem_append.mp hkv with hkv | hkv
                          · rcases List.mem_append.mp hkv with hkv | hkv
                            · rcases List.mem_append.mp hkv with hkv | hkv
                              · simp only [List.mem_cons, List.mem_singleton,
                                  List.not_mem_nil, or_false] at hkv
                                rcases hkv with h | h | h | h
                                all_goals subst h
                                · exact IsJson.pstr _
                                · exact IsJson.pstr cs
                                · exact isJson_optStr mid
                                · exact isJson_optStr mname
                              · rcases toolPartOf_vals h2 kv hkv with h | h
                                · rw [h]; exact IsJson.pstr tci
                                · exact ih art kv.2 hw5.2.1 h
                            · rcases aiPartOf_vals h3 kv hkv with h | h
                              · exact ih tcs kv.2 hw5.2.2.1 h
                              · exact ih um kv.2 hw5.2.2.2.1 h
                          · exact ih ak kv.2 hw5.2.2.2.2 (optJsonPart_vals h4 kv hkv)

/-- `_to_jsonable` is the identity on JSON-safe values. -/
theorem isJson_toJsonF : ∀ (n : Nat) (y : PyVal), psize y ≤ n → IsJson y →
    toJsonF n y = .ok y := by
  intro n
  induction n with
  | zero =>
      intro y hn _
      have := one_le_psize y
      omega
  | succ n ih =>
      intro y hn hy
      cases hy with
      | pnone => rfl
      | pbool b => rfl
      | pint k => rfl
      | pstr s => rfl
      | plist xs h =>
          simp only [toJsonF]
          rw [exMapM_ok_id (fun x hx => ih x
            (by have := psize_lt_of_mem hx; simp [psize] at hn; omega)
            (h x hx))]
          rfl
      | pdict kvs h =>
          simp only [toJsonF]
          rw [exMapKV_ok_id (fun kv hkv => ih kv.2
            (by have := psize_lt_of_memKV hkv; simp [psize] at hn; omega)
            (h kv hkv))]
          rfl

/-- C4: the serializer is idempotent.  For every well-typed input `x`
(every message object occurring in `x` has the `str`-or-`list` content that
LangChain's `BaseMessage` type declares and pydantic enforces), if
`_to_jsonable(x)` returns `y`, then `_to_jsonable(y)` returns `y`
unchanged: applying `_to_jsonable` to any value it has already produced is
a no-op. -/
theorem to_jsonable_idempotent (x y : PyVal) (hwt : wt x = true)
    (hx : toJson x = .ok y) : toJson y = .ok y :=
  isJson_toJsonF (psize y) y le_rfl (toJsonF_isJson (psize x) x y hwt hx)

/-- Witness for C4 on a concrete value exercising the datetime, message,
dict and list branches. -/
theorem to_jsonable_idempotent_witness :
    wt (.pdict [("dt", .pdatetime "2024-01-01T00:00:00"),
      ("msg", .pmsg .human (.pstr "hi") (some "m1") none "" .pnone .pnone
        .pnone (.pdict [])),
      ("xs", .plist [.pint 3, .pbool true])]) = true ∧
    toJson (.pdict [("dt", .pdatetime "2024-01-01T00:00:00"),
      ("msg", .pmsg .human (.pstr "hi") (some "m1") none "" .pnone .pnone
        .pnone (.pdict [])),
      ("xs", .plist [.pint 3, .pbool true])]) =
      .ok (.pdict [("dt", .pstr "2024-01-01T00:00:00"),
        ("msg", .pdict [("type", .pstr "human"), ("content", .pstr "hi"),
          ("id", .pstr "m1"), ("name", .pnone)]),
        ("xs", .plist [.pint 3, .pbool true])]) ∧
    toJson (.pdict [("dt", .pstr "2024-01-01T00:00:00"),
      ("msg", .pdict [("type", .pstr "human"), ("content", .pstr "hi"),
        ("id", .pstr "m1"), ("name", .pnone)]),
      ("xs", .plist [.pint 3, .pbool true])]) =
      .ok (.pdict [("dt", .pstr "2024-01-01T00:00:00"),
        ("msg", .pdict [("type", .pstr "human"), ("content", .pstr "hi"),
          ("id", .pstr "m1"), ("name", .pnone)]),
        ("xs", .plist [.pint 3, .pbool true])]) :=
  ⟨rfl, rfl, to_jsonable_idempotent
    (.pdict [("dt", .pdatetime "2024-01-01T00:00:00"),
      ("msg", .pmsg .human (.pstr "hi") (some "m1") none "" .pnone .pnone
        .pnone (.pdict [])),
      ("xs", .plist [.pint 3, .pbool true])]) _ rfl rfl⟩

/-- The patch condition of `_sanitize_checkpoint_state`: a dict message
whose `type` equals `"tool"` and which has no `tool_call_id` key (non-dict
messages are never patched). -/
def needsPatch (m : PyVal) : Bool :=
  match m with
  | .pdict d =>
      (match pyGet d "type" with
        | some (.pstr t) => t == "tool"
        | _ => false) && (pyGet d "tool_call_id").isNone
  | _ => false

/-- `msg_copy = msg.copy(); msg_copy["tool_call_id"] = "legacy_missing_id"`. -/
def patchMsg (m : PyVal) : PyVal :=
  match m with
  | .pdict d => .pdict (pdictSet d "tool_call_id" (.pstr "legacy_missing_id"))
  | _ => m

/-- The `for msg in messages` loop of `_sanitize_checkpoint_state`: returns
the accumulated `sanitized_messages` and the `modified` flag. -/
def sanLoop : List PyVal → List PyVal × Bool
  | [] => ([], false)
  | m :: t =>
      let r := sanLoop t
      if needsPatch m then (patchMsg m :: r.1, true) else (m :: r.1, r.2)

/-- `DjangoCheckpointer._sanitize_checkpoint_state`.  Non-dict states and
states without truthy `channel_values`/`messages` are returned as-is;
iterating a string, a dict or a `ChainMap` yields characters or keys, which
are never dict messages, so those shapes also come back unchanged; a truthy
non-mapping `channel_values` raises `AttributeError` and a non-iterable
`messages` raises `TypeError`. -/
def sanitizeState (state : PyVal) : Except String PyVal :=
  match state with
  | .pdict d =>
      let cv := pyGetD d "channel_values" (.pdict [])
      if !pyTruthy cv then .ok state
      else
        match cv with
        | .pdict cvd =>
            let msgs := pyGetD cvd "messages" (.plist [])
            if !pyTruthy msgs then .ok state
            else
              match msgs with
              | .plist ms =>
                  let r := sanLoop ms
                  if r.2 then
                    .ok (.pdict (pdictSet d "channel_values"
                      (.pdict (pdictSet cvd "messages" (.plist r.1)))))
                  else .ok state
              | .ptuple ms =>
                  let r := sanLoop ms
                  if r.2 then
                    .ok (.pdict (pdictSet d "channel_values"
                      (.pdict (pdictSet cvd "messages" (.plist r.1)))))
                  else .ok state
              | .pset ms =>
                  let r := sanLoop ms
                  if r.2 then
                    .ok (.pdict (pdictSet d "channel_values"
                      (.pdict (pdictSet cvd "messages" (.plist r.1)))))
                  else .ok state
              | .pstr _ => .ok state
              | .pdict _ => .ok state
              | .pchain _ => .ok state
              | _ => .error "TypeError: object is not iterable"
        | _ => .error "AttributeError: object has no attribute get"
  | _ => .ok state

theorem pyGet_pdictSet_self (d : List (String × PyVal)) (k : String) (v : PyVal) :
    pyGet (pdictSet d k v) k = some v := by
  induction d with
  | nil => simp [pdictSet, pyGet, List.lookup]
  | cons a t ih =>
      obtain ⟨a1, a2⟩ := a
      by_cases hk : a1 = k
      · subst hk
        simp [pdictSet, pyGet, List.lookup]
      · have hne : (k == a1) = false := beq_eq_false_iff_ne.mpr (Ne.symm hk)
        simp only [pdictSet, if_neg hk, pyGet, List.lookup, hne]
        exact ih

theorem pdictSet_ne_nil (d : List (String × PyVal)) (k : String) (v : PyVal) :
    pdictSet d k v ≠ [] := by
  cases d with
  | nil => simp [pdictSet]
  | cons a t =>
      obtain ⟨a1, a2⟩ := a
      simp only [pdictSet]
      by_cases hk : a1 = k <;> simp [hk]

theorem pdictSet_absent (d : List (String × PyVal)) (k : String) (v : PyVal)
    (h : pyGet d k = none) : pdictSet d k v = d ++ [(k, v)] := by
  induction d with
  | nil => simp [pdictSet]
  | cons a t ih =>
      obtain ⟨a1, a2⟩ := a
      by_cases hk : a1 = k
      · exfalso
        subst hk
        simp [pyGet, List.lookup] at h
      · have hne : (k == a1) = false := beq_eq_false_iff_ne.mpr (Ne.symm hk)
        simp only [pyGet, List.lookup, hne] at h
        simp only [pdictSet, if_neg hk, List.cons_append, List.cons.injEq, true_and]
        exact ih h

theorem needsPatch_patchMsg {m : PyVal} (h : needsPatch m = true) :
    needsPatch (patchMsg m) = false := by
  cases m with
  | pdict d =>
      simp only [patchMsg, needsPatch, Bool.and_eq_false_iff]
      right
      simp [pyGet_pdictSet_self]
  | pnone => simp [needsPatch] at h
  | pbool b => simp [needsPatch] at h
  | pint n => simp [needsPatch] at h
  | pstr s => simp [needsPatch] at h
  | plist xs => simp [needsPatch] at h
  | ptuple xs => simp [needsPatch] at h
  | pset xs => simp [needsPatch] at h
  | pdatetime iso => simp [needsPatch] at h
  | pchain maps => simp [needsPatch] at h
  | pmsg k c mid mname tci art tcs um ak => simp [needsPatch] at h
  | pobj r => simp [needsPatch] at h

theorem sanLoop_eq (ms : List PyVal) :
    sanLoop ms = (ms.map (fun m => if needsPatch m then patchMsg m else m),
      ms.any needsPatch) := by
  induction ms with
  | nil => rfl
  | cons m t ih =>
      simp only [sanLoop, ih, List.map_cons, List.any_cons]
      by_cases h : needsPatch m = true
      · simp [h]
      · simp only [Bool.not_eq_true] at h
        simp [h]

theorem map_id_of_no_patch : ∀ (ms : List PyVal),
    (∀ m ∈ ms, needsPatch m = false) →
    ms.map (fun m => if needsPatch m then patchMsg m else m) = ms := by
  intro ms
  induction ms with
  | nil => intro _; rfl
  | cons a t ih =>
      intro h
      simp only [List.map_cons, List.cons.injEq]
      constructor
      · simp [h a (List.mem_cons_self a t)]
      · exact ih (fun m hm => h m (List.mem_cons_of_mem a hm))

theorem sanLoop_fixed {ms : List PyVal} (h : ∀ m ∈ ms, needsPatch m = false) :
    sanLoop ms = (ms, false) := by
  have h1 : ms.map (fun m => if needsPatch m then patchMsg m else m) = ms :=
    map_id_of_no_patch ms h
  have h2 : ms.any needsPatch = false := by
    simp only [List.any_eq_false]
    intro m hm
    simp [h m hm]
  rw [sanLoop_eq, h1, h2]

theorem patched_no_patch {ms : List PyVal} :
    ∀ m1 ∈ ms.map (fun m => if needsPatch m then patchMsg m else m),
      needsPatch m1 = false := by
  intro m1 hm1
  obtain ⟨m, _, rfl⟩ := List.mem_map.mp hm1
  by_cases h : needsPatch m = true
  · simp only [h, if_true]
    exact needsPatch_patchMsg h
  · simp only [Bool.not_eq_true] at h
    simp [h]

theorem sanitize_rebuilt_fixed {d cvd : List (String × PyVal)} {ms : List PyVal}
    (hms : ms ≠ []) (hnp : ∀ m ∈ ms, needsPatch m = false) :
    sanitizeState (.pdict (pdictSet d "channel_values"
      (.pdict (pdictSet cvd "messages" (.plist ms))))) =
    .ok (.pdict (pdictSet d "channel_values"
      (.pdict (pdictSet cvd "messages" (.plist ms))))) := by
  simp only [sanitizeState, pyGetD, pyGet_pdictSet_self, Option.getD_some]
  have h1 : pyTruthy (PyVal.pdict (pdictSet cvd "messages" (.plist ms))) = true := by
    simp [pyTruthy, List.isEmpty_eq_true, pdictSet_ne_nil]
  have h2 : pyTruthy (PyVal.plist ms) = true := by
    simp [pyTruthy, List.isEmpty_eq_true, hms]
  simp [h1, h2, sanLoop_fixed hnp]

/-- `_sanitize_checkpoint_state` is idempotent: feeding its own output back
in returns that output unchanged. -/
theorem sanitize_idem {state r : PyVal} (hr : sanitizeState state = .ok r) :
    sanitizeState r = .ok r := by
  cases state with
  | pdict d =>
      cases hcv : pyGetD d "channel_values" (.pdict []) with
      | pdict cvd =>
          cases t1 : pyTruthy (PyVal.pdict cvd) with
          | false =>
              simp only [sanitizeState, hcv, t1, Bool.not_false, if_true,
                Except.ok.injEq] at hr
              subst hr
              simp only [sanitizeState, hcv, t1, Bool.not_false, if_true]
          | true =>
              cases hm : pyGetD cvd "messages" (.plist []) with
              | plist ms =>
                  cases t2 : pyTruthy (PyVal.plist ms) with
                  | false =>
                      simp only [sanitizeState, hcv, t1, hm, t2, Bool.not_false,
                        Bool.not_true, Bool.false_eq_true, if_false, if_true,
                        Except.ok.injEq] at hr
                      subst hr
                      simp only [sanitizeState, hcv, t1, hm, t2, Bool.not_false,
                        Bool.not_true, Bool.false_eq_true, if_false, if_true]
                  | true =>
                      have hne : ms ≠ [] := by
                        intro hh
                        subst hh
                        simp [pyTruthy] at t2
                      cases hany : ms.any needsPatch with
                      | true =>
                          simp only [sanitizeState, hcv, t1, hm, t2, Bool.not_true,
                            Bool.false_eq_true, if_false, sanLoop_eq, hany, if_true,
                            Except.ok.injEq] at hr
                          subst hr
                          refine sanitize_rebuilt_fixed ?hmapne patched_no_patch
                          simpa using hne
                      | false =>
                          simp only [sanitizeState, hcv, t1, hm, t2, Bool.not_true,
                            Bool.false_eq_true, if_false, sanLoop_eq, hany,
                            Except.ok.injEq] at hr
                          subst hr
                          simp only [sanitizeState, hcv, t1, hm, t2, Bool.not_true,
                            Bool.false_eq_true, if_false, sanLoop_eq, hany]
              | ptuple ms =>
                  cases t2 : pyTruthy (PyVal.ptuple ms) with
                  | false =>
                      simp only [sanitizeState, hcv, t1, hm, t2, Bool.not_false,
                        Bool.not_true, Bool.false_eq_true, if_false, if_true,
                        Except.ok.injEq] at hr
                      subst hr
                      simp only [sanitizeState, hcv, t1, hm, t2, Bool.not_false,
                        Bool.not_true, Bool.false_eq_true, if_false, if_true]
                  | true =>
                      have hne : ms ≠ [] := by
                        intro hh
                        subst hh
                        simp [pyTruthy] at t2
                      cases hany : ms.any needsPatch with
                      | true =>
                          simp only [sanitizeState, hcv, t1, hm, t2, Bool.not_true,
                            Bool.false_eq_true, if_false, sanLoop_eq, hany, if_true,
                            Except.ok.injEq] at hr
                          subst hr
                          refine sanitize_rebuilt_fixed ?hmapne2 patched_no_patch
                          simpa using hne
                      | false =>
                          simp only [sanitizeState, hcv, t1, hm, t2, Bool.not_true,
                            Bool.false_eq_true, if_false, sanLoop_eq, hany,
                            Except.ok.injEq] at hr
                          subst hr
                          simp only [sanitizeState, hcv, t1, hm, t2, Bool.not_true,
                            Bool.false_eq_true, if_false, sanLoop_eq, hany]
              | pset ms =>
                  cases t2 : pyTruthy (PyVal.pset ms) with
                  | false =>
                      simp only [sanitizeState, hcv, t1, hm, t2, Bool.not_false,
                        Bool.not_true, Bool.false_eq_true, if_false, if_true,
                        Except.ok.injEq] at hr
                      subst hr
                      simp only [sanitizeState, hcv, t1, hm, t2, Bool.not_false,
                        Bool.not_true, Bool.false_eq_true, if_false, if_true]
                  | true =>
                      have hne : ms ≠ [] := by
                        intro hh
                        subst hh
                        simp [pyTruthy] at t2
                      cases hany : ms.any needsPatch with
                      | true =>
                          simp only [sanitizeState, hcv, t1, hm, t2, Bool.not_true,
                            Bool.false_eq_true, if_false, sanLoop_eq, hany, if_true,
                            Except.ok.injEq] at hr
                          subst hr
                          refine sanitize_rebuilt_fixed ?hmapne3 patched_no_patch
                          simpa using hne
                      | false =>
                          simp only [sanitizeState, hcv, t1, hm, t2, Bool.not_true,
                            Bool.false_eq_true, if_false, sanLoop_eq, hany,
                            Except.ok.injEq] at hr
                          subst hr
                          simp only [sanitizeState, hcv, t1, hm, t2, Bool.not_true,
                            Bool.false_eq_true, if_false, sanLoop_eq, hany]
              | pstr s =>
                  cases t2 : pyTruthy (PyVal.pstr s) <;>
                    (simp only [sanitizeState, hcv, t1, hm, t2, Bool.not_false,
                      Bool.not_true, Bool.false_eq_true, if_false, if_true,
                      Except.ok.injEq] at hr
                     subst hr
                     simp only [sanitizeState, hcv, t1, hm, t2, Bool.not_false,
                       Bool.not_true, Bool.false_eq_true, if_false, if_true])
              | pdict x =>
                  cases t2 : pyTruthy (PyVal.pdict x) <;>
                    (simp only [sanitizeState, hcv, t1, hm, t2, Bool.not_false,
                      Bool.not_true, Bool.false_eq_true, if_false, if_true,
                      Except.ok.injEq] at hr
                     subst hr
                     simp only [sanitizeState, hcv, t1, hm, t2, Bool.not_false,
                       Bool.not_true, Bool.false_eq_true, if_false, if_true])
              | pchain x =>
                  cases t2 : pyTruthy (PyVal.pchain x) <;>
                    (simp only [sanitizeState, hcv, t1, hm, t2, Bool.not_false,
                      Bool.not_true, Bool.false_eq_true, if_false, if_true,
                      Except.ok.injEq] at hr
                     subst hr
                     simp only [sanitizeState, hcv, t1, hm, t2, Bool.not_false,
                       Bool.not_true, Bool.false_eq_true, if_false, if_true])
              | pnone =>
                  have t2 : pyTruthy PyVal.pnone = false := rfl
                  simp only [sanitizeState, hcv, t1, Bool.not_true,
                    Bool.false_eq_true, if_false, hm, t2, Bool.not_false,
                    if_true, Except.ok.injEq] at hr
                  subst hr
                  simp only [sanitizeState, hcv, t1, Bool.not_true,
                    Bool.false_eq_true, if_false, hm, t2, Bool.not_false, if_true]
              | pbool b =>
                  cases b with
                  | false =>
                      have t2 : pyTruthy (PyVal.pbool false) = false := rfl
                      simp only [sanitizeState, hcv, t1, Bool.not_true,
                        Bool.false_eq_true, if_false, hm, t2, Bool.not_false,
                        if_true, Except.ok.injEq] at hr
                      subst hr
                      simp only [sanitizeState, hcv, t1, Bool.not_true,
                        Bool.false_eq_true, if_false, hm, t2, Bool.not_false,
                        if_true]
                  | true =>
                      have t2 : pyTruthy (PyVal.pbool true) = true := rfl
                      simp only [sanitizeState, hcv, t1, Bool.not_true,
                        Bool.false_eq_true, if_false, hm, t2] at hr
                      exact Except.noConfusion hr
              | pint k =>
                  cases t2 : pyTruthy (PyVal.pint k) with
                  | false =>
                      simp only [sanitizeState, hcv, t1, Bool.not_true,
                        Bool.false_eq_true, if_false, hm, t2, Bool.not_false,
                        if_true, Except.ok.injEq] at hr
                      subst hr
                      simp only [sanitizeState, hcv, t1, Bool.not_true,
                        Bool.false_eq_true, if_false, hm, t2, Bool.not_false,
                        if_true]
                  | true =>
                      simp only [sanitizeState, hcv, t1, Bool.not_true,
                        Bool.false_eq_true, if_false, hm, t2] at hr
                      exact Except.noConfusion hr
              | pdatetime iso =>
                  have t2 : pyTruthy (PyVal.pdatetime iso) = true := rfl
                  simp only [sanitizeState, hcv, t1, Bool.not_true,
                    Bool.false_eq_true, if_false, hm, t2] at hr
                  exact Except.noConfusion hr
              | pmsg kind c mid mname tci art tcs um ak =>
                  have t2 : pyTruthy (PyVal.pmsg kind c mid mname tci art tcs
                      um ak) = true := rfl
                  simp only [sanitizeState, hcv, t1, Bool.not_true,
                    Bool.false_eq_true, if_false, hm, t2] at hr
                  exact Except.noConfusion hr
              | pobj rr =>
                  have t2 : pyTruthy (PyVal.pobj rr) = true := rfl
                  simp only [sanitizeState, hcv, t1, Bool.not_true,
                    Bool.false_eq_true, if_false, hm, t2] at hr
                  exact Except.noConfusion hr
      | pnone =>
          simp only [sanitizeState, hcv, pyTruthy, Bool.not_false, if_true,
            Except.ok.injEq] at hr
          subst hr
          simp only [sanitizeState, hcv, pyTruthy, Bool.not_false, if_true]
      | pbool b =>
          cases b with
          | false =>
              simp only [sanitizeState, hcv, pyTruthy, Bool.not_false, if_true,
                Except.ok.injEq] at hr
              subst hr
              simp only [sanitizeState, hcv, pyTruthy, Bool.not_false, if_true]
          | true =>
              simp only [sanitizeState, hcv, pyTruthy, Bool.not_true,
                Bool.false_eq_true, if_false] at hr
              exact Except.noConfusion hr
      | pint k =>
          cases t1 : pyTruthy (PyVal.pint k) with
          | false =>
              simp only [sanitizeState, hcv, t1, Bool.not_false, if_true,
                Except.ok.injEq] at hr
              subst hr
              simp only [sanitizeState, hcv, t1, Bool.not_false, if_true]
          | true =>
              simp only [sanitizeState, hcv, t1, Bool.not_true,
                Bool.false_eq_true, if_false] at hr
              exact Except.noConfusion hr
      | pstr s =>
          cases t1 : pyTruthy (PyVal.pstr s) with
          | false =>
              simp only [sanitizeState, hcv, t1, Bool.not_false, if_true,
                Except.ok.injEq] at hr
              subst hr
              simp only [sanitizeState, hcv, t1, Bool.not_false, if_true]
          | true =>
              simp only [sanitizeState, hcv, t1, Bool.not_true,
                Bool.false_eq_true, if_false] at hr
              exact Except.noConfusion hr
      | plist xs =>
          cases t1 : pyTruthy (PyVal.plist xs) with
          | false =>
              simp only [sanitizeState, hcv, t1, Bool.not_false, if_true,
                Except.ok.injEq] at hr
              subst hr
              simp only [sanitizeState, hcv, t1, Bool.not_false, if_true]
          | true =>
              simp only [sanitizeState, hcv, t1, Bool.not_true,
                Bool.false_eq_true, if_false] at hr
              exact Except.noConfusion hr
      | ptuple xs =>
          cases t1 : pyTruthy (PyVal.ptuple xs) with
          | false =>
              simp only [sanitizeState, hcv, t1, Bool.not_false, if_true,
                Except.ok.injEq] at hr
              subst hr
              simp only [sanitizeState, hcv, t1, Bool.not_false, if_true]
          | true =>
              simp only [sanitizeState, hcv, t1, Bool.not_true,
                Bool.false_eq_true, if_false] at hr
              exact Except.noConfusion hr
      | pset xs =>
          cases t1 : pyTruthy (PyVal.pset xs) with
          | false =>
              simp only [sanitizeState, hcv, t1, Bool.not_false, if_true,
                Except.ok.injEq] at hr
              subst hr
              simp only [sanitizeState, hcv, t1, Bool.not_false, if_true]
          | true =>
              simp only [sanitizeState, hcv, t1, Bool.not_true,
                Bool.false_eq_true, if_false] at hr
              exact Except.noConfusion hr
      | pdatetime iso =>
          simp only [sanitizeState, hcv, pyTruthy, Bool.not_true,
            Bool.false_eq_true, if_false] at hr
          exact Except.noConfusion hr
      | pchain maps =>
          cases t1 : pyTruthy (PyVal.pchain maps) with
          | false =>
              simp only [sanitizeState, hcv, t1, Bool.not_false, if_true,
                Except.ok.injEq] at hr
              subst hr
              simp only [sanitizeState, hcv, t1, Bool.not_false, if_true]
          | true =>
              simp only [sanitizeState, hcv, t1, Bool.not_true,
                Bool.false_eq_true, if_false] at hr
              exact Except.noConfusion hr
      | pmsg kind c mid mname tci art tcs um ak =>
          simp only [sanitizeState, hcv, pyTruthy, Bool.not_true,
            Bool.false_eq_true, if_false] at hr
          exact Except.noConfusion hr
      | pobj rr =>
          simp only [sanitizeState, hcv, pyTruthy, Bool.not_true,
            Bool.false_eq_true, if_false] at hr
          exact Except.noConfusion hr
  | pnone =>
      simp only [sanitizeState, Except.ok.injEq] at hr
      subst hr
      rfl
  | pbool b =>
      simp only [sanitizeState, Except.ok.injEq] at hr
      subst hr
      rfl
  | pint k =>
      simp only [sanitizeState, Except.ok.injEq] at hr
      subst hr
      rfl
  | pstr s =>
      simp only [sanitizeState, Except.ok.injEq] at hr
      subst hr
      rfl
  | plist xs =>
      simp only [sanitizeState, Except.ok.injEq] at hr
      subst hr
      rfl
  | ptuple xs =>
      simp only [sanitizeState, Except.ok.injEq] at hr
      subst hr
      rfl
  | pset xs =>
      simp only [sanitizeState, Except.ok.injEq] at hr
      subst hr
      rfl
  | pdatetime iso =>
      simp only [sanitizeState, Except.ok.injEq] at hr
      subst hr
      rfl
  | pchain maps =>
      simp only [sanitizeState, Except.ok.injEq] at hr
      subst hr
      rfl
  | pmsg kind c mid mname tci art tcs um ak =>
      simp only [sanitizeState, Except.ok.injEq] at hr
      subst hr
      rfl
  | pobj rr =>
      simp only [sanitizeState, Except.ok.injEq] at hr
      subst hr
      rfl

/-- On a structurally well-formed state, `_sanitize_checkpoint_state`
returns the input itself when no message needs patching, and otherwise a
shallow-copied state whose message list maps each patch-needing message to
its patched copy, in order. -/
theorem sanitize_characterization {d cvd : List (String × PyVal)}
    {ms : List PyVal}
    (h2 : pyGet d "channel_values" = some (.pdict cvd))
    (h3 : pyGet cvd "messages" = some (.plist ms)) :
    sanitizeState (.pdict d) =
      .ok (if ms.any needsPatch then
        .pdict (pdictSet d "channel_values" (.pdict (pdictSet cvd "messages"
          (.plist (ms.map (fun m => if needsPatch m then patchMsg m else m))))))
      else .pdict d) := by
  have hcvd : cvd ≠ [] := by
    intro hh
    subst hh
    simp [pyGet, List.lookup] at h3
  have hie : cvd.isEmpty = false := by
    cases cvd with
    | nil => exact absurd rfl hcvd
    | cons a t => rfl
  have t1 : pyTruthy (PyVal.pdict cvd) = true := by
    simp [pyTruthy, hie]
  cases ms with
  | nil =>
      have t2 : pyTruthy (PyVal.plist ([] : List PyVal)) = false := rfl
      simp only [sanitizeState, pyGetD, h2, Option.getD_some, t1, Bool.not_true,
        Bool.false_eq_true, if_false, h3, t2, Bool.not_false, if_true,
        List.any_nil]
  | cons m0 mt =>
      have t2 : pyTruthy (PyVal.plist (m0 :: mt)) = true := rfl
      simp only [sanitizeState, pyGetD, h2, Option.getD_some, t1, Bool.not_true,
        Bool.false_eq_true, if_false, h3, t2, sanLoop_eq]
      by_cases hany : (m0 :: mt).any needsPatch = true
      · simp [hany]
      · simp only [Bool.not_eq_true] at hany
        simp [hany]

/-- A patch-needing message is a dict without `tool_call_id`, and its patch
is a fresh copy with `tool_call_id = "legacy_missing_id"` appended. -/
theorem patchMsg_appends {m : PyVal} (h : needsPatch m = true) :
    ∃ md, m = .pdict md ∧ pyGet md "tool_call_id" = none ∧
      patchMsg m = .pdict (md ++ [("tool_call_id", .pstr "legacy_missing_id")]) := by
  cases m with
  | pdict d =>
      simp only [needsPatch, Bool.and_eq_true, Option.isNone_iff_eq_none] at h
      exact ⟨d, rfl, h.2, by simp [patchMsg, pdictSet_absent _ _ _ h.2]⟩
  | pnone => simp [needsPatch] at h
  | pbool b => simp [needsPatch] at h
  | pint n => simp [needsPatch] at h
  | pstr s => simp [needsPatch] at h
  | plist xs => simp [needsPatch] at h
  | ptuple xs => simp [needsPatch] at h
  | pset xs => simp [needsPatch] at h
  | pdatetime iso => simp [needsPatch] at h
  | pchain maps => simp [needsPatch] at h
  | pmsg k c mid mname tci art tcs um ak => simp [needsPatch] at h
  | pobj r => simp [needsPatch] at h

/-- C6: sanitizer correctness, idempotence and non-mutation.  (1) On a state
whose `channel_values.messages` is a message list, the sanitizer returns the
very same state when no message needs patching (the original reference, no
copy), and otherwise a rebuilt state whose message list patches exactly the
dict messages of type `"tool"` lacking `tool_call_id`, in order, leaving
every other message unchanged.  (2) Each patched message is a copy of the
original dict with `tool_call_id = "legacy_missing_id"` appended and
carries that key afterwards.  (3) The sanitizer is idempotent.  Non-mutation
of the stored record is inherent in the embedding: `sanitizeState` is a pure
function of the state and the persisted value is not rewritten (`get_tuple`
below returns no modified store). -/
theorem sanitize_checkpoint_state_spec (state : PyVal) :
    (∀ d cvd ms, state = .pdict d →
      pyGet d "channel_values" = some (.pdict cvd) →
      pyGet cvd "messages" = some (.plist ms) →
      sanitizeState state =
        .ok (if ms.any needsPatch then
          .pdict (pdictSet d "channel_values" (.pdict (pdictSet cvd "messages"
            (.plist (ms.map (fun m => if needsPatch m then patchMsg m else m))))))
        else state)) ∧
    (∀ m, needsPatch m = true → ∃ md, m = .pdict md ∧
      pyGet md "tool_call_id" = none ∧
      patchMsg m = .pdict (md ++ [("tool_call_id", .pstr "legacy_missing_id")]) ∧
      pyGet (pdictSet md "tool_call_id" (.pstr "legacy_missing_id"))
        "tool_call_id" = some (.pstr "legacy_missing_id")) ∧
    (∀ m, needsPatch m = false → (if needsPatch m then patchMsg m else m) = m) ∧
    (∀ r, sanitizeState state = .ok r → sanitizeState r = .ok r) := by
  refine ⟨?pa, ?pb, ?pc, ?pd⟩
  · intro d cvd ms h1 h2 h3
    subst h1
    exact sanitize_characterization h2 h3
  · intro m h
    obtain ⟨md, hmd, hnone, happ⟩ := patchMsg_appends h
    exact ⟨md, hmd, hnone, happ, pyGet_pdictSet_self md _ _⟩
  · intro m h
    simp [h]
  · intro r hr
    exact sanitize_idem hr

/-- Witness for C6: a tool message lacking `tool_call_id` is patched, a
normal message survives unchanged, and re-sanitizing is a no-op. -/
theorem sanitize_checkpoint_state_spec_witness :
    sanitizeState (.pdict [("channel_values", .pdict [("messages", .plist
      [.pdict [("type", .pstr "tool"), ("content", .pstr "r")],
        .pdict [("type", .pstr "human"), ("content", .pstr "hi")]])])]) =
      .ok (.pdict [("channel_values", .pdict [("messages", .plist
        [.pdict [("type", .pstr "tool"), ("content", .pstr "r"),
          ("tool_call_id", .pstr "legacy_missing_id")],
          .pdict [("type", .pstr "human"), ("content", .pstr "hi")]])])]) ∧
    sanitizeState (.pdict [("channel_values", .pdict [("messages", .plist
      [.pdict [("type", .pstr "tool"), ("content", .pstr "r"),
        ("tool_call_id", .pstr "legacy_missing_id")],
        .pdict [("type", .pstr "human"), ("content", .pstr "hi")]])])]) =
      .ok (.pdict [("channel_values", .pdict [("messages", .plist
        [.pdict [("type", .pstr "tool"), ("content", .pstr "r"),
          ("tool_call_id", .pstr "legacy_missing_id")],
          .pdict [("type", .pstr "human"), ("content", .pstr "hi")]])])]) := by
  have h := sanitize_checkpoint_state_spec (.pdict [("channel_values",
    .pdict [("messages", .plist
      [.pdict [("type", .pstr "tool"), ("content", .pstr "r")],
        .pdict [("type", .pstr "human"), ("content", .pstr "hi")]])])])
  have ha := h.1 _ _ _ rfl rfl rfl
  refine ⟨ha.trans (by rfl), h.2.2.2 _ (ha.trans (by rfl))⟩

/-!  The Django data model (`ai_workflows/models.py`).  `created_at` /
`updated_at` timestamps are modeled by a logical clock `DB.now` that `put`
advances, so `auto_now_add` yields strictly increasing creation times.
Foreign keys are modeled by the unique natural keys the code queries on:
a checkpoint points to its thread by `thread_id` and to its parent by the
parent's `checkpoint_id`. -/

/-- A `ConversationThread` row. -/
structure Thread where
  thread_id : String
  user_id : Option Int
  workflow_type : String
  metadata : PyVal
  created_at : Nat
  updated_at : Nat
  is_active : Bool

/-- A `ConversationCheckpoint` row. -/
structure Ckpt where
  thread_id : String
  checkpoint_id : String
  parent_checkpoint : Option String
  state : PyVal
  checkpoint_metadata : PyVal
  version : PyVal
  created_at : Nat

/-- The database: the two tables plus the logical clock. -/
structure DB where
  threads : List Thread
  ckpts : List Ckpt
  now : Nat

/-- The configuration dict, projected onto the keys the checkpointer reads:
`config["configurable"]["thread_id"]`, `config["configurable"]["checkpoint_id"]`,
`config["user_id"]`, `config["workflow_type"]`, `config["metadata"]`. -/
structure Config where
  thread_id : Option String
  checkpoint_id : Option String
  user_id : Option Int
  workflow_type : Option String
  metadata : Option (List (String × PyVal))

/-- A LangGraph `CheckpointTuple` as this checkpointer builds it
(`config`, `checkpoint`, `metadata`). -/
structure CkptTuple where
  config : Config
  checkpoint : PyVal
  metadata : PyVal

/-- `DjangoCheckpointer._get_thread_id`: raises `ValueError` when the
configurable thread id is missing or falsy (the empty string). -/
def getThreadId (cfg : Config) : Except String String :=
  match cfg.thread_id with
  | some t =>
      if t = "" then .error "ValueError: thread_id is required in config"
      else .ok t
  | none => .error "ValueError: thread_id is required in config"

/-- The `if checkpoint_id:` truthiness read in `get_tuple`. -/
def cfgCheckpointId (cfg : Config) : Option String :=
  match cfg.checkpoint_id with
  | some c => if c = "" then none else some c
  | none => none

/-- `ConversationThread.objects.get(thread_id=...)`. -/
def findThread (db : DB) (tid : String) : Option Thread :=
  db.threads.find? (fun t => t.thread_id == tid)

/-- `ConversationCheckpoint.objects.get(thread=..., checkpoint_id=...)`. -/
def findCkpt (db : DB) (tid cid : String) : Option Ckpt :=
  db.ckpts.find? (fun c => c.thread_id == tid && c.checkpoint_id == cid)

/-- `ConversationCheckpoint.objects.filter(thread=...)`. -/
def threadCkpts (db : DB) (tid : String) : List Ckpt :=
  db.ckpts.filter (fun c => c.thread_id == tid)

/-- Truthiness of `config.get("user_id")` (a Django pk is never 0, but the
code tests truthiness, so 0 would count as absent). -/
def userTruthy : Option Int → Bool
  | some n => n != 0
  | none => false

/-- In-place row update of the thread with the given natural key. -/
def setThread (ts : List Thread) (t : Thread) : List Thread :=
  ts.map (fun x => if x.thread_id == t.thread_id then t else x)

/-- `thread.metadata.update(safe_metadata)`: both sides must be dicts, else
Python raises. -/
def pyMetaUpdate (a b : PyVal) : Except String PyVal :=
  match a, b with
  | .pdict da, .pdict eb => .ok (.pdict (pdictUpdate da eb))
  | .pdict _, _ => .error "TypeError: update argument is not a mapping"
  | _, _ => .error "AttributeError: object has no attribute update"

/-- `DjangoCheckpointer._get_or_create_thread`: `get_or_create` keyed on the
thread id with defaults from the config; on an existing thread, attach the
user when the thread is anonymous and the config carries a truthy user id,
and merge truthy config metadata into the stored metadata. -/
def getOrCreateThread (db : DB) (cfg : Config) :
    Except String (DB × Thread) := do
  let tid ← getThreadId cfg
  let mdRaw := cfg.metadata.getD []
  let safeMeta ← toJson (.pdict mdRaw)
  match findThread db tid with
  | some t =>
      let t1 := if userTruthy cfg.user_id && t.user_id == none then
          { t with user_id := cfg.user_id }
        else t
      let cfgMetaTruthy := match cfg.metadata with
        | some md => !md.isEmpty
        | none => false
      let t2 ←
        if cfgMetaTruthy then do
          let merged ← pyMetaUpdate t1.metadata safeMeta
          pure { t1 with metadata := merged }
        else pure t1
      .ok ({ db with threads := setThread db.threads t2 }, t2)
  | none =>
      let t : Thread := {
        thread_id := tid
        user_id := cfg.user_id
        workflow_type := cfg.workflow_type.getD "chatbot"
        metadata := safeMeta
        created_at := db.now
        updated_at := db.now
        is_active := true }
      .ok ({ db with threads := db.threads ++ [t] }, t)

/-- Python `a or b`. -/
def pyOr (a b : PyVal) : PyVal := if pyTruthy a then a else b

/-- Checkpoint ids are strings per the LangGraph `Checkpoint` contract; a
non-string truthy id renders through `str()` on its way into the
`CharField`. -/
def idToStr : PyVal → String
  | .pstr s => s
  | v => pyRepr v

/-- `str(uuid.uuid4())`, modeled as an identifier fresh for the current
clock value. -/
def uuidFresh (n : Nat) : String := "uuid4-" ++ toString n

/-- `DjangoCheckpointer._extract_checkpoint_id`: the checkpoint dict's
truthy `id` or `checkpoint_id`, else the configurable checkpoint id if
truthy, else a fresh uuid. -/
def extractCheckpointId (ck : List (String × PyVal)) (cfg : Config)
    (fresh : String) : String :=
  let v := pyOr (pyGetD ck "id" .pnone) (pyGetD ck "checkpoint_id" .pnone)
  if pyTruthy v then idToStr v
  else
    match cfg.checkpoint_id with
    | some c => if c = "" then fresh else c
    | none => fresh

/-- `DjangoCheckpointer._get_version`: `checkpoint.get("version", 1)`. -/
def getVersion (ck : List (String × PyVal)) : PyVal :=
  pyGetD ck "version" (.pint 1)

/-- The version resolution in `put`: `max(new_versions.values())` when
`new_versions` is non-empty, else the payload's version (channel versions
are integers in this deployment). -/
def computeVersion (ck : List (String × PyVal)) (nv : List (String × Int)) :
    PyVal :=
  match (nv.map Prod.snd).max? with
  | some m => .pint m
  | none => getVersion ck

/-- The parent-checkpoint resolution in `put`: a truthy
`parent_checkpoint_id` is looked up within the same thread; a miss (or a
non-string id, which can match no `CharField` row) silently resolves to no
parent. -/
def resolveParent (db : DB) (tid : String) (ck : List (String × PyVal)) :
    Option String :=
  let pid := pyGetD ck "parent_checkpoint_id" .pnone
  if pyTruthy pid then
    match pid with
    | .pstr s =>
        match findCkpt db tid s with
        | some _ => some s
        | none => none
    | _ => none
  else none

/-- `ConversationCheckpoint.objects.update_or_create` keyed on
`(thread, checkpoint_id)`: an existing row keeps its position and
`created_at` and gets the `defaults` fields overwritten; otherwise a new row
is appended with `created_at` set by `auto_now_add`. -/
def updateOrCreateCkpt (db : DB) (tid cid : String) (parent : Option String)
    (st md ver : PyVal) : DB :=
  if (findCkpt db tid cid).isSome then
    { db with ckpts := db.ckpts.map (fun c =>
        if c.thread_id == tid && c.checkpoint_id == cid then
          { c with
            parent_checkpoint := parent
            state := st
            checkpoint_metadata := md
            version := ver }
        else c) }
  else
    { db with ckpts := db.ckpts ++ [{
        thread_id := tid
        checkpoint_id := cid
        parent_checkpoint := parent
        state := st
        checkpoint_metadata := md
        version := ver
        created_at := db.now }] }

/-- `thread.updated_at = timezone.now(); thread.save()`. -/
def touchThread (db : DB) (tid : String) : DB :=
  { db with threads := db.threads.map (fun t =>
      if t.thread_id == tid then { t with updated_at := db.now } else t) }

/-- `{**state_dict, "id": checkpoint_id}`: mapping unpacking demands a
dict. -/
def mkTupleCkpt (ss : PyVal) (cid : String) : Except String PyVal :=
  match ss with
  | .pdict d => .ok (.pdict (pdictSet d "id" (.pstr cid)))
  | _ => .error "TypeError: argument after ** must be a mapping"

/-- The state-changing tail of `put`: write the checkpoint row, bump the
thread's `updated_at`, and advance the clock. -/
def putCore (db1 : DB) (tid cid : String) (parent : Option String)
    (st mt ver : PyVal) : DB :=
  let db2 := updateOrCreateCkpt db1 tid cid parent st mt ver
  let db3 := touchThread db2 tid
  { db3 with now := db3.now + 1 }

/-- `DjangoCheckpointer.put`.  The returned tuple carries the serialized
(unsanitized) state merged with the assigned checkpoint id. -/
def put (db : DB) (cfg : Config) (ck : List (String × PyVal)) (m : PyVal)
    (nv : List (String × Int)) : Except String (DB × CkptTuple) := do
  let _ ← getThreadId cfg
  let r ← getOrCreateThread db cfg
  let db1 := r.1
  let tid := r.2.thread_id
  let cid := extractCheckpointId ck cfg (uuidFresh db1.now)
  let parent := resolveParent db1 tid ck
  let ver := computeVersion ck nv
  let safeState ← toJson (.pdict ck)
  let safeMeta ← toJson m
  let ckv ← mkTupleCkpt safeState cid
  .ok (putCore db1 tid cid parent safeState safeMeta ver,
    { config := cfg
      checkpoint := ckv
      metadata := safeMeta })

/-- Stable-enough descending insertion by `created_at` (the database's
`ORDER BY created_at DESC`; tie order among equal timestamps is not
specified by the source either). -/
def insertByCreated (c : Ckpt) : List Ckpt → List Ckpt
  | [] => [c]
  | x :: t =>
      if c.created_at > x.created_at then c :: x :: t
      else x :: insertByCreated c t

/-- `queryset.order_by("-created_at")`. -/
def sortByCreatedDesc (l : List Ckpt) : List Ckpt :=
  l.foldr insertByCreated []

/-- `queryset.order_by("-created_at").first()`. -/
def latestCkpt (l : List Ckpt) : Option Ckpt :=
  (sortByCreatedDesc l).head?

/-- `DjangoCheckpointer.get_tuple`: every miss resolves to `none`; a hit
sanitizes the stored state and merges in the checkpoint id. -/
def getTuple (db : DB) (cfg : Config) : Except String (Option CkptTuple) :=
  match getThreadId cfg with
  | .error _ => .ok none
  | .ok tid =>
      match findThread db tid with
      | none => .ok none
      | some _ =>
          match cfgCheckpointId cfg with
          | some cid =>
              match findCkpt db tid cid with
              | none => .ok none
              | some c => do
                  let ss ← sanitizeState c.state
                  let ckv ← mkTupleCkpt ss c.checkpoint_id
                  .ok (some {
                    config := cfg
                    checkpoint := ckv
                    metadata := c.checkpoint_metadata })
          | none =>
              match latestCkpt (threadCkpts db tid) with
              | none => .ok none
              | some c => do
                  let ss ← sanitizeState c.state
                  let ckv ← mkTupleCkpt ss c.checkpoint_id
                  .ok (some {
                    config := cfg
                    checkpoint := ckv
                    metadata := c.checkpoint_metadata })

/-- `datetime.fromisoformat` on the `before` bound; timestamps are the
logical clock here, and an unparsable string models the swallowed
`ValueError` (the filter is skipped). -/
def parseBefore (s : String) : Option Nat := s.toNat?

/-- Python `==` between stored JSON values, for the `version` filter
(dict comparison here is order-sensitive; the code only ever compares
integer versions). -/
def pyEqbF : Nat → PyVal → PyVal → Bool
  | 0, _, _ => false
  | n+1, a, b =>
    match a, b with
    | .pnone, .pnone => true
    | .pbool x, .pbool y => x == y
    | .pbool x, .pint y => if x then y == 1 else y == 0
    | .pint x, .pbool y => if y then x == 1 else x == 0
    | .pint x, .pint y => x == y
    | .pstr x, .pstr y => x == y
    | .pdatetime x, .pdatetime y => x == y
    | .plist xs, .plist ys =>
        xs.length == ys.length &&
        (xs.zip ys).all (fun p => pyEqbF n p.1 p.2)
    | .pdict xs, .pdict ys =>
        xs.length == ys.length &&
        (xs.zip ys).all (fun p => p.1.1 == p.2.1 && pyEqbF n p.1.2 p.2.2)
    | _, _ => false

/-- Python `==` with sufficient fuel. -/
def pyEqb (a b : PyVal) : Bool := pyEqbF (psize a) a b

/-- `DjangoCheckpointer.list`: misses resolve to the empty list, `before`
and the `version` filter narrow the queryset, ordering is by descending
`created_at`, and the limit is applied only when truthy (so `limit=0` is
ignored). -/
def listCkpts (db : DB) (cfg : Config)
    (filter : Option (List (String × PyVal))) (before : Option String)
    (limit : Option Nat) : Except String (List CkptTuple) :=
  match getThreadId cfg with
  | .error _ => .ok []
  | .ok tid =>
      match findThread db tid with
      | none => .ok []
      | some _ =>
          let q0 := threadCkpts db tid
          let q1 := match before with
            | some b =>
                match parseBefore b with
                | some bo => q0.filter (fun c => c.created_at < bo)
                | none => q0
            | none => q0
          let q2 := match filter with
            | some f =>
                match pyGet f "version" with
                | some v => q1.filter (fun c => pyEqb c.version v)
                | none => q1
            | none => q1
          let q3 := sortByCreatedDesc q2
          let q4 := match limit with
            | some k => if k ≠ 0 then q3.take k else q3
            | none => q3
          exMapM (fun c => do
            let ss ← sanitizeState c.state
            let ckv ← mkTupleCkpt ss c.checkpoint_id
            .ok ({
              config := cfg
              checkpoint := ckv
              metadata := c.checkpoint_metadata } : CkptTuple)) q4

/-- Key uniqueness for threads. -/
def distinctKeysT : List Thread → Bool
  | [] => true
  | t :: ts => ts.all (fun x => x.thread_id != t.thread_id) && distinctKeysT ts

/-- Key uniqueness for checkpoints (`unique_together` on
`(thread, checkpoint_id)`). -/
def distinctKeysC : List Ckpt → Bool
  | [] => true
  | c :: cs =>
      cs.all (fun x =>
        !(x.thread_id == c.thread_id && x.checkpoint_id == c.checkpoint_id)) &&
      distinctKeysC cs

/-- Database well-formedness: the database constraints the Django models
declare (unique `thread_id`, `unique_together (thread, checkpoint_id)`)
plus clock consistency (`auto_now_add` stamps are in the past). -/
def wfDB (db : DB) : Bool :=
  distinctKeysT db.threads && distinctKeysC db.ckpts &&
  db.ckpts.all (fun c => c.created_at < db.now)

theorem toJson_pdict_shape {kvs : List (String × PyVal)} {v : PyVal}
    (h : toJson (.pdict kvs) = .ok v) : ∃ d, v = .pdict d := by
  unfold toJson at h
  have h1 : psize (.pdict kvs) = psizeKV kvs + 1 := by simp [psize]; omega
  rw [h1] at h
  simp only [toJsonF] at h
  cases hm : exMapKV (toJsonF (psizeKV kvs)) kvs with
  | error e =>
      rw [hm, ex_bind_err] at h
      exact Except.noConfusion h
  | ok ys =>
      rw [hm, ex_bind_ok] at h
      cases h
      exact ⟨ys, rfl⟩

theorem findThread_some {db : DB} {tid : String} {t : Thread}
    (h : findThread db tid = some t) : t.thread_id = tid ∧ t ∈ db.threads := by
  unfold findThread at h
  have h1 := List.find?_some h
  have h2 := List.mem_of_find?_eq_some h
  exact ⟨by simpa using h1, h2⟩

theorem findCkpt_some {db : DB} {tid cid : String} {c : Ckpt}
    (h : findCkpt db tid cid = some c) :
    c.thread_id = tid ∧ c.checkpoint_id = cid ∧ c ∈ db.ckpts := by
  unfold findCkpt at h
  have h1 := List.find?_some h
  have h2 := List.mem_of_find?_eq_some h
  simp only [Bool.and_eq_true, beq_iff_eq] at h1
  exact ⟨h1.1, h1.2, h2⟩

/-- Shape of a successful `_get_or_create_thread`: the checkpoint table and
the clock are untouched, and the returned thread carries the configured
thread id. -/
theorem goc_shape {db : DB} {cfg : Config} {db1 : DB} {t : Thread}
    (h : getOrCreateThread db cfg = .ok (db1, t)) :
    db1.ckpts = db.ckpts ∧ db1.now = db.now ∧
      getThreadId cfg = .ok t.thread_id := by
  unfold getOrCreateThread at h
  simp only [] at h
  cases htid : getThreadId cfg with
  | error e =>
      rw [htid, ex_bind_err] at h
      exact Except.noConfusion h
  | ok tid =>
      rw [htid, ex_bind_ok] at h
      cases hmj : toJson (.pdict (cfg.metadata.getD [])) with
      | error e =>
          rw [hmj, ex_bind_err] at h
          exact Except.noConfusion h
      | ok safeMeta =>
          rw [hmj, ex_bind_ok] at h
          cases hf : findThread db tid with
          | some t0 =>
              rw [hf] at h
              simp only [] at h
              by_cases hmt : (match cfg.metadata with
                  | some md => !md.isEmpty
                  | none => false) = true
              · rw [if_pos hmt] at h
                cases hpm : pyMetaUpdate
                    (if userTruthy cfg.user_id && t0.user_id == none then
                      { t0 with user_id := cfg.user_id }
                    else t0).metadata safeMeta with
                | error e =>
                    rw [hpm, ex_bind_err] at h
                    exact Except.noConfusion h
                | ok merged =>
                    rw [hpm, ex_bind_ok, ex_pure, ex_bind_ok] at h
                    cases h
                    refine ⟨rfl, rfl, ?ht⟩
                    have : t0.thread_id = tid := (findThread_some hf).1
                    congr 1
                    show tid = (if userTruthy cfg.user_id &&
                      t0.user_id == none then { t0 with user_id := cfg.user_id }
                      else t0).thread_id
                    split
                    · exact this.symm
                    · exact this.symm
              · rw [if_neg hmt, ex_pure, ex_bind_ok] at h
                cases h
                refine ⟨rfl, rfl, ?ht2⟩
                have : t0.thread_id = tid := (findThread_some hf).1
                congr 1
                split
                · exact this.symm
                · exact this.symm
          | none =>
              rw [hf] at h
              simp only [] at h
              cases h
              exact ⟨rfl, rfl, rfl⟩

/-- Decomposition of a successful `put`: a thread resolution followed by
serialization and `putCore`, returning the serialized state merged with the
assigned checkpoint id. -/
theorem put_shape {db : DB} {cfg : Config} {ck : List (String × PyVal)}
    {m : PyVal} {nv : List (String × Int)} {db' : DB} {tp : CkptTuple}
    (h : put db cfg ck m nv = .ok (db', tp)) :
    ∃ db1 t s mt sd,
      getOrCreateThread db cfg = .ok (db1, t) ∧
      toJson (.pdict ck) = .ok s ∧ toJson m = .ok mt ∧ s = .pdict sd ∧
      db' = putCore db1 t.thread_id
        (extractCheckpointId ck cfg (uuidFresh db1.now))
        (resolveParent db1 t.thread_id ck) s mt (computeVersion ck nv) ∧
      tp = {
        config := cfg
        checkpoint := .pdict (pdictSet sd "id"
          (.pstr (extractCheckpointId ck cfg (uuidFresh db1.now))))
        metadata := mt } := by
  unfold put at h
  simp only [] at h
  cases htid : getThreadId cfg with
  | error e =>
      rw [htid, ex_bind_err] at h
      exact Except.noConfusion h
  | ok tid =>
      rw [htid, ex_bind_ok] at h
      cases hg : getOrCreateThread db cfg with
      | error e =>
          rw [hg, ex_bind_err] at h
          exact Except.noConfusion h
      | ok r =>
          rw [hg, ex_bind_ok] at h
          cases hs : toJson (.pdict ck) with
          | error e =>
              rw [hs, ex_bind_err] at h
              exact Except.noConfusion h
          | ok s =>
              rw [hs, ex_bind_ok] at h
              cases hmt : toJson m with
              | error e =>
                  rw [hmt, ex_bind_err] at h
                  exact Except.noConfusion h
              | ok mt =>
                  rw [hmt, ex_bind_ok] at h
                  obtain ⟨sd, rfl⟩ := toJson_pdict_shape hs
                  rw [show mkTupleCkpt (.pdict sd)
                      (extractCheckpointId ck cfg (uuidFresh r.1.now)) =
                      .ok (.pdict (pdictSet sd "id"
                        (.pstr (extractCheckpointId ck cfg
                          (uuidFresh r.1.now))))) from rfl, ex_bind_ok] at h
                  cases h
                  exact ⟨r.1, r.2, .pdict sd, mt, sd, rfl, rfl, rfl, rfl, rfl, rfl⟩

theorem head_insertByCreated_lt {x c : Ckpt} {l : List Ckpt}
    (hh : l.head? = some c) (hx : x.created_at < c.created_at) :
    (insertByCreated x l).head? = some c := by
  cases l with
  | nil => cases hh
  | cons a t =>
      simp only [List.head?_cons, Option.some.injEq] at hh
      subst hh
      simp only [insertByCreated]
      rw [if_neg (by omega)]
      rfl

theorem foldr_insert_head {c : Ckpt} : ∀ (l : List Ckpt),
    (∀ x ∈ l, x.created_at < c.created_at) →
    (l.foldr insertByCreated [c]).head? = some c := by
  intro l
  induction l with
  | nil => intro _; rfl
  | cons a t ih =>
      intro h
      simp only [List.foldr_cons]
      exact head_insertByCreated_lt
        (ih fun x hx => h x (List.mem_cons_of_mem a hx))
        (h a (List.mem_cons_self a t))

/-- A checkpoint strictly newer than everything else is the latest. -/
theorem latest_append_strict_max {l : List Ckpt} {c : Ckpt}
    (h : ∀ x ∈ l, x.created_at < c.created_at) :
    latestCkpt (l ++ [c]) = some c := by
  unfold latestCkpt sortByCreatedDesc
  rw [List.foldr_append]
  exact foldr_insert_head l h

theorem mem_insertByCreated {x y : Ckpt} {l : List Ckpt} :
    y ∈ insertByCreated x l ↔ y = x ∨ y ∈ l := by
  induction l with
  | nil => simp [insertByCreated]
  | cons a t ih =>
      simp only [insertByCreated]
      by_cases hc : x.created_at > a.created_at
      · simp [hc, List.mem_cons]
      · simp only [hc, if_false, List.mem_cons, ih]
        tauto

theorem mem_sortByCreatedDesc {y : Ckpt} {l : List Ckpt} :
    y ∈ sortByCreatedDesc l ↔ y ∈ l := by
  unfold sortByCreatedDesc
  induction l with
  | nil => simp
  | cons a t ih =>
      simp only [List.foldr_cons, mem_insertByCreated, ih, List.mem_cons]

theorem insert_head_spec (x : Ckpt) (l : List Ckpt) :
    ((insertByCreated x l).head? = some x ∧
      (l = [] ∨ ∃ d, l.head? = some d ∧ d.created_at < x.created_at)) ∨
    (∃ d, l.head? = some d ∧ (insertByCreated x l).head? = some d ∧
      x.created_at ≤ d.created_at) := by
  cases l with
  | nil => exact Or.inl ⟨rfl, Or.inl rfl⟩
  | cons d t =>
      by_cases hc : x.created_at > d.created_at
      · exact Or.inl ⟨by simp [insertByCreated, hc], Or.inr ⟨d, rfl, hc⟩⟩
      · refine Or.inr ⟨d, rfl, ?hh, by omega⟩
        simp [insertByCreated, hc]

theorem sortDesc_head_max : ∀ (l : List Ckpt) (c : Ckpt),
    (sortByCreatedDesc l).head? = some c →
    ∀ x ∈ l, x.created_at ≤ c.created_at := by
  intro l
  induction l with
  | nil => intro c h; cases h
  | cons a t ih =>
      intro c h x hx
      have hst : sortByCreatedDesc (a :: t) =
          insertByCreated a (sortByCreatedDesc t) := rfl
      rw [hst] at h
      rcases insert_head_spec a (sortByCreatedDesc t) with
        ⟨hh, hcase⟩ | ⟨d, hd, hh, hle⟩
      · rw [hh] at h
        cases h
        rcases List.mem_cons.mp hx with hx | hx
        · subst hx; exact le_rfl
        · rcases hcase with hnil | ⟨d, hd, hdc⟩
          · exfalso
            have : x ∈ sortByCreatedDesc t := mem_sortByCreatedDesc.mpr hx
            rw [hnil] at this
            simp at this
          · have := ih d hd x hx
            omega
      · rw [hh] at h
        cases h
        rcases List.mem_cons.mp hx with hx | hx
        · subst hx; exact hle
        · exact ih c hd x hx

/-- The checkpoint `order_by("-created_at").first()` returns belongs to the
queryset and carries its maximum `created_at`. -/
theorem latestCkpt_spec {l : List Ckpt} {c : Ckpt}
    (h : latestCkpt l = some c) :
    c ∈ l ∧ ∀ x ∈ l, x.created_at ≤ c.created_at := by
  unfold latestCkpt at h
  constructor
  · have : c ∈ sortByCreatedDesc l := by
      cases hs : sortByCreatedDesc l with
      | nil => rw [hs] at h; cases h
      | cons a t =>
          rw [hs] at h
          simp only [List.head?_cons, Option.some.injEq] at h
          subst h
          exact List.mem_cons_self _ _
    exact mem_sortByCreatedDesc.mp this
  · exact sortDesc_head_max l c h

theorem latestCkpt_none_iff {l : List Ckpt} :
    latestCkpt l = none ↔ l = [] := by
  unfold latestCkpt
  constructor
  · intro h
    cases hl : l with
    | nil => rfl
    | cons a t =>
        exfalso
        have ha : a ∈ sortByCreatedDesc l := by
          rw [hl]
          exact mem_sortByCreatedDesc.mpr (List.mem_cons_self a t)
        cases hs : sortByCreatedDesc l with
        | nil => rw [hs] at ha; simp at ha
        | cons b u => rw [hs] at h; cases h
  · intro h
    subst h
    rfl

theorem update_filter {tid cid : String} {g : Ckpt → Ckpt}
    (hkeep : ∀ c, (g c).thread_id = c.thread_id ∧
      (g c).checkpoint_id = c.checkpoint_id) :
    ∀ (l : List Ckpt), distinctKeysC l = true →
    ∀ c0, List.find? (fun c => c.thread_id == tid && c.checkpoint_id == cid)
        l = some c0 →
    (l.map (fun c => if c.thread_id == tid && c.checkpoint_id == cid then g c
        else c)).filter
      (fun c => c.thread_id == tid && c.checkpoint_id == cid) = [g c0] := by
  intro l
  induction l with
  | nil => intro _ c0 h; cases h
  | cons a t ih =>
      intro hd c0 hf
      simp only [distinctKeysC, Bool.and_eq_true, List.all_eq_true] at hd
      by_cases hk : (a.thread_id == tid && a.checkpoint_id == cid) = true
      · simp only [List.find?, hk] at hf
        cases hf
        simp only [List.map_cons, if_pos hk]
        have hkg : ((g a).thread_id == tid &&
            (g a).checkpoint_id == cid) = true := by
          rw [(hkeep a).1, (hkeep a).2]
          exact hk
        simp only [List.filter, hkg]
        have hnone : ∀ x ∈ t,
            ¬(x.thread_id == tid && x.checkpoint_id == cid) = true := by
          intro x hx hxk
          have := hd.1 x hx
          simp only [Bool.and_eq_true, beq_iff_eq] at hk hxk
          simp [hxk.1, hxk.2, hk.1, hk.2] at this
        have hmapid : t.map (fun c => if c.thread_id == tid &&
            c.checkpoint_id == cid then g c else c) = t := by
          rw [List.map_congr_left (fun x hx => if_neg (hnone x hx))]
          exact List.map_id t
        rw [hmapid, List.filter_eq_nil_iff.mpr hnone]
      · have hk2 : (a.thread_id == tid && a.checkpoint_id == cid) = false := by
          simpa using hk
        simp only [List.find?, hk2] at hf
        simp only [List.map_cons, if_neg hk]
        simp only [List.filter, hk2]
        exact ih hd.2 c0 hf

/-- After `update_or_create` there is exactly one row for the key, and its
mutable fields are exactly the supplied defaults. -/
theorem uoc_unique {db : DB} {tid cid : String} {parent : Option String}
    {st mt ver : PyVal} (hdc : distinctKeysC db.ckpts = true) :
    ∃ ts, (updateOrCreateCkpt db tid cid parent st mt ver).ckpts.filter
        (fun c => c.thread_id == tid && c.checkpoint_id == cid) =
      [{ thread_id := tid
         checkpoint_id := cid
         parent_checkpoint := parent
         state := st
         checkpoint_metadata := mt
         version := ver
         created_at := ts }] := by
  unfold updateOrCreateCkpt
  by_cases hf : (findCkpt db tid cid).isSome = true
  · rw [if_pos hf]
    obtain ⟨c0, hc0⟩ := Option.isSome_iff_exists.mp hf
    unfold findCkpt at hc0
    refine ⟨c0.created_at, ?hu⟩
    have := update_filter (g := fun c =>
      { c with
        parent_checkpoint := parent
        state := st
        checkpoint_metadata := mt
        version := ver }) (fun c => ⟨rfl, rfl⟩) db.ckpts hdc c0 hc0
    simp only [] at this ⊢
    rw [this]
    have hk := List.find?_some hc0
    simp only [Bool.and_eq_true, beq_iff_eq] at hk
    rw [show ({ c0 with
        parent_checkpoint := parent
        state := st
        checkpoint_metadata := mt
        version := ver } : Ckpt) =
      { thread_id := c0.thread_id
        checkpoint_id := c0.checkpoint_id
        parent_checkpoint := parent
        state := st
        checkpoint_metadata := mt
        version := ver
        created_at := c0.created_at } from rfl, hk.1, hk.2]
  · rw [if_neg hf]
    refine ⟨db.now, ?hi⟩
    simp only [List.filter_append]
    have hnone : ∀ x ∈ db.ckpts,
        ¬(x.thread_id == tid && x.checkpoint_id == cid) = true := by
      intro x hx
      have : findCkpt db tid cid = none := by
        cases hfc : findCkpt db tid cid with
        | none => rfl
        | some c => rw [hfc] at hf; simp at hf
      unfold findCkpt at this
      exact List.find?_eq_none.mp this x hx
    rw [List.filter_eq_nil_iff.mpr hnone]
    simp

theorem distinctKeysC_map_keep {g : Ckpt → Ckpt}
    (hkeep : ∀ c, (g c).thread_id = c.thread_id ∧
      (g c).checkpoint_id = c.checkpoint_id) :
    ∀ (l : List Ckpt) (f : Ckpt → Bool), distinctKeysC l = true →
    distinctKeysC (l.map (fun c => if f c then g c else c)) = true := by
  intro l
  induction l with
  | nil => intro f _; rfl
  | cons a t ih =>
      intro f hd
      simp only [distinctKeysC, Bool.and_eq_true, List.all_eq_true] at hd
      simp only [List.map_cons, distinctKeysC, Bool.and_eq_true,
        List.all_eq_true]
      constructor
      · intro x hx
        obtain ⟨x0, hx0, rfl⟩ := List.mem_map.mp hx
        have h1 := hd.1 x0 hx0
        have e1 : (if f x0 then g x0 else x0).thread_id = x0.thread_id := by
          split
          · exact (hkeep x0).1
          · rfl
        have e2 : (if f x0 then g x0 else x0).checkpoint_id =
            x0.checkpoint_id := by
          split
          · exact (hkeep x0).2
          · rfl
        have e3 : (if f a then g a else a).thread_id = a.thread_id := by
          split
          · exact (hkeep a).1
          · rfl
        have e4 : (if f a then g a else a).checkpoint_id = a.checkpoint_id := by
          split
          · exact (hkeep a).2
          · rfl
        simpa [e1, e2, e3, e4] using h1
      · exact ih f hd.2

theorem distinctKeysC_append_new {l : List Ckpt} {c : Ckpt}
    (hd : distinctKeysC l = true)
    (hnew : ∀ x ∈ l,
      ¬(x.thread_id == c.thread_id && x.checkpoint_id == c.checkpoint_id)
        = true) :
    distinctKeysC (l ++ [c]) = true := by
  induction l with
  | nil => simp [distinctKeysC]
  | cons a t ih =>
      simp only [distinctKeysC, Bool.and_eq_true, List.all_eq_true] at hd
      simp only [List.cons_append, distinctKeysC, Bool.and_eq_true,
        List.all_eq_true]
      refine ⟨?ha, ih hd.2 (fun x hx => hnew x (List.mem_cons_of_mem a hx))⟩
      intro x hx
      rcases List.mem_append.mp hx with hx | hx
      · exact hd.1 x hx
      · simp only [List.mem_singleton] at hx
        rw [hx]
        have hthis := hnew a (List.mem_cons_self a t)
        by_cases h1 : c.thread_id = a.thread_id
        · by_cases h2 : c.checkpoint_id = a.checkpoint_id
          · exfalso
            apply hthis
            simp [beq_iff_eq, h1.symm, h2.symm]
          · simp [beq_iff_eq, h2]
        · simp [beq_iff_eq, h1]

/-- `update_or_create` preserves the `(thread, checkpoint_id)` uniqueness
constraint. -/
theorem uoc_distinct {db : DB} {tid cid : String} {parent : Option String}
    {st mt ver : PyVal} (hdc : distinctKeysC db.ckpts = true) :
    distinctKeysC (updateOrCreateCkpt db tid cid parent st mt ver).ckpts
      = true := by
  unfold updateOrCreateCkpt
  by_cases hf : (findCkpt db tid cid).isSome = true
  · rw [if_pos hf]
    show distinctKeysC (db.ckpts.map (fun c =>
        if c.thread_id == tid && c.checkpoint_id == cid then
          { c with
            parent_checkpoint := parent
            state := st
            checkpoint_metadata := mt
            version := ver }
        else c)) = true
    exact @distinctKeysC_map_keep (fun c =>
      { c with
        parent_checkpoint := parent
        state := st
        checkpoint_metadata := mt
        version := ver }) (fun c => ⟨rfl, rfl⟩) db.ckpts
      (fun c => c.thread_id == tid && c.checkpoint_id == cid) hdc
  · rw [if_neg hf]
    have hkeynone : findCkpt db tid cid = none := by
      cases hfc : findCkpt db tid cid with
      | none => rfl
      | some c => rw [hfc] at hf; simp at hf
    refine distinctKeysC_append_new hdc ?hnn
    intro x hx
    unfold findCkpt at hkeynone
    exact List.find?_eq_none.mp hkeynone x hx

/-- `put` preserves the checkpoint-key uniqueness constraint. -/
theorem put_distinct {db : DB} {cfg : Config} {ck : List (String × PyVal)}
    {m : PyVal} {nv : List (String × Int)} {db' : DB} {tp : CkptTuple}
    (hdc : distinctKeysC db.ckpts = true)
    (h : put db cfg ck m nv = .ok (db', tp)) :
    distinctKeysC db'.ckpts = true := by
  obtain ⟨db1, t, s, mt, sd, hg, hs, hmt, hsd, hdb, htp⟩ := put_shape h
  have hc1 : db1.ckpts = db.ckpts := (goc_shape hg).1
  subst hdb
  have hpc : ∀ (d : DB) (tid cid : String) (p : Option String) (a b c : PyVal),
      (putCore d tid cid p a b c).ckpts =
        (updateOrCreateCkpt d tid cid p a b c).ckpts := fun _ _ _ _ _ _ _ => rfl
  rw [hpc]
  exact uoc_distinct (by rw [hc1]; exact hdc)

theorem putCore_ckpts (d : DB) (tid cid : String) (p : Option String)
    (a b c : PyVal) :
    (putCore d tid cid p a b c).ckpts =
      (updateOrCreateCkpt d tid cid p a b c).ckpts := rfl

theorem uoc_threads (d : DB) (tid cid : String) (p : Option String)
    (a b c : PyVal) :
    (updateOrCreateCkpt d tid cid p a b c).threads = d.threads := by
  unfold updateOrCreateCkpt
  by_cases h : (findCkpt d tid cid).isSome = true
  · rw [if_pos h]
  · rw [if_neg h]

theorem uoc_insert {d : DB} {tid cid : String} {p : Option String}
    {a b c : PyVal} (h : findCkpt d tid cid = none) :
    (updateOrCreateCkpt d tid cid p a b c).ckpts =
      d.ckpts ++ [{
        thread_id := tid
        checkpoint_id := cid
        parent_checkpoint := p
        state := a
        checkpoint_metadata := b
        version := c
        created_at := d.now }] := by
  unfold updateOrCreateCkpt
  rw [h]
  rfl

theorem findCkpt_congr {d d2 : DB} (h : d.ckpts = d2.ckpts)
    (tid cid : String) : findCkpt d tid cid = findCkpt d2 tid cid := by
  unfold findCkpt
  rw [h]

theorem resolveParent_congr {d d2 : DB} (h : d.ckpts = d2.ckpts)
    (tid : String) (ck : List (String × PyVal)) :
    resolveParent d tid ck = resolveParent d2 tid ck := by
  have hfc : findCkpt d = findCkpt d2 :=
    funext fun a => funext fun b => findCkpt_congr h a b
  unfold resolveParent
  rw [hfc]

theorem find?_append_none {α : Type} {p : α → Bool} {l l2 : List α}
    (h : l.find? p = none) : (l ++ l2).find? p = l2.find? p := by
  induction l with
  | nil => rfl
  | cons a t ih =>
      simp only [List.find?] at h ⊢
      cases hp : p a with
      | true => rw [hp] at h; cases h
      | false =>
          rw [hp] at h
          simp only [List.cons_append, List.find?, hp]
          exact ih h

theorem find?_map_keepT {f : Thread → Thread}
    (hkeep : ∀ x, (f x).thread_id = x.thread_id) {tid : String} :
    ∀ (l : List Thread),
      (l.map f).find? (fun t => t.thread_id == tid) =
        (l.find? (fun t => t.thread_id == tid)).map f := by
  intro l
  induction l with
  | nil => rfl
  | cons a t ih =>
      simp only [List.map_cons, List.find?, hkeep a]
      cases hp : (a.thread_id == tid) with
      | true => rfl
      | false => exact ih

theorem find?_setThread {t0 t2 : Thread} :
    ∀ (l : List Thread),
      l.find? (fun x => x.thread_id == t2.thread_id) = some t0 →
      (l.map (fun x => if x.thread_id == t2.thread_id then t2 else x)).find?
        (fun x => x.thread_id == t2.thread_id) = some t2 := by
  intro l
  induction l with
  | nil => intro hf; cases hf
  | cons a t ih =>
      intro hf
      by_cases hk : (a.thread_id == t2.thread_id) = true
      · simp only [List.map_cons, if_pos hk, List.find?, beq_self_eq_true]
      · have hk2 : (a.thread_id == t2.thread_id) = false := by simpa using hk
        simp only [List.find?, hk2] at hf
        simp only [List.map_cons, hk2, Bool.false_eq_true, if_false, List.find?]
        exact ih hf

/-- The resolver leaves the database with a row for the resolved thread. -/
theorem goc_findThread {db : DB} {cfg : Config} {db1 : DB} {t : Thread}
    (h : getOrCreateThread db cfg = .ok (db1, t)) :
    findThread db1 t.thread_id = some t := by
  have htid := (goc_shape h).2.2
  unfold getOrCreateThread at h
  simp only [] at h
  cases htid2 : getThreadId cfg with
  | error e => rw [htid2, ex_bind_err] at h; exact Except.noConfusion h
  | ok tid =>
      have htt : t.thread_id = tid := by
        rw [htid2] at htid
        injection htid with hh
        exact hh.symm
      rw [htid2, ex_bind_ok] at h
      cases hmj : toJson (.pdict (cfg.metadata.getD [])) with
      | error e => rw [hmj, ex_bind_err] at h; exact Except.noConfusion h
      | ok safeMeta =>
          rw [hmj, ex_bind_ok] at h
          cases hf : findThread db tid with
          | some t0 =>
              rw [hf] at h
              simp only [] at h
              by_cases hmt : (match cfg.metadata with
                  | some md => !md.isEmpty
                  | none => false) = true
              · rw [if_pos hmt] at h
                cases hpm : pyMetaUpdate
                    (if userTruthy cfg.user_id && t0.user_id == none then
                      { t0 with user_id := cfg.user_id }
                    else t0).metadata safeMeta with
                | error e =>
                    rw [hpm, ex_bind_err] at h
                    exact Except.noConfusion h
                | ok merged =>
                    rw [hpm, ex_bind_ok, ex_pure, ex_bind_ok] at h
                    cases h
                    unfold findThread at hf ⊢
                    simp only [setThread]
                    rw [← htt] at hf
                    exact find?_setThread db.threads hf
              · rw [if_neg hmt, ex_pure, ex_bind_ok] at h
                cases h
                unfold findThread at hf ⊢
                simp only [setThread]
                rw [← htt] at hf
                exact find?_setThread db.threads hf
          | none =>
              rw [hf] at h
              simp only [] at h
              cases h
              unfold findThread at hf ⊢
              rw [find?_append_none]
              · simp [List.find?]
              · exact hf

/-- `putCore` keeps a row for every thread present before it runs. -/
theorem putCore_findThread {db1 : DB} {tid tid2 cid : String}
    {p : Option String} {a b c : PyVal} {t : Thread}
    (h : findThread db1 tid = some t) :
    ∃ t2, findThread (putCore db1 tid2 cid p a b c) tid = some t2 := by
  unfold putCore
  simp only []
  unfold findThread touchThread
  simp only []
  rw [uoc_threads]
  rw [find?_map_keepT (fun x => by
    by_cases hx : (x.thread_id == tid2) = true
    · rw [if_pos hx]
    · rw [if_neg hx]) db1.threads]
  unfold findThread at h
  rw [h]
  exact ⟨_, rfl⟩

theorem mem_threadCkpts {db : DB} {tid : String} {x : Ckpt}
    (h : x ∈ threadCkpts db tid) : x ∈ db.ckpts ∧ x.thread_id = tid := by
  unfold threadCkpts at h
  have h1 := List.mem_filter.mp h
  exact ⟨h1.1, by simpa using h1.2⟩

theorem threadCkpts_append_own {db : DB} {tid : String} {row : Ckpt}
    (hdb2 : row.thread_id = tid) :
    ∀ (d2 : DB), d2.ckpts = db.ckpts ++ [row] →
      threadCkpts d2 tid = threadCkpts db tid ++ [row] := by
  intro d2 h2
  unfold threadCkpts
  rw [h2, List.filter_append]
  congr 1
  simp [hdb2]

/-- C3: `get_tuple` never raises on a miss.  (1) A config without a thread
token yields absent, not an error.  (2) An unknown thread yields absent.
(3) A supplied checkpoint id that misses within the thread yields absent.
(4) With no checkpoint id, an empty thread yields absent, and otherwise the
returned checkpoint is the thread's checkpoint of maximum `created_at`
(sanitized, with the checkpoint id merged in). -/
theorem get_tuple_miss_contract (db : DB) (cfg : Config) :
    (∀ e, getThreadId cfg = .error e → getTuple db cfg = .ok none) ∧
    (∀ tid, getThreadId cfg = .ok tid → findThread db tid = none →
      getTuple db cfg = .ok none) ∧
    (∀ tid t cid, getThreadId cfg = .ok tid → findThread db tid = some t →
      cfgCheckpointId cfg = some cid → findCkpt db tid cid = none →
      getTuple db cfg = .ok none) ∧
    (∀ tid t, getThreadId cfg = .ok tid → findThread db tid = some t →
      cfgCheckpointId cfg = none → threadCkpts db tid = [] →
      getTuple db cfg = .ok none) ∧
    (∀ tid t c ss ckv, getThreadId cfg = .ok tid → findThread db tid = some t →
      cfgCheckpointId cfg = none → latestCkpt (threadCkpts db tid) = some c →
      sanitizeState c.state = .ok ss →
      mkTupleCkpt ss c.checkpoint_id = .ok ckv →
      getTuple db cfg = .ok (some {
        config := cfg
        checkpoint := ckv
        metadata := c.checkpoint_metadata }) ∧
        c ∈ threadCkpts db tid ∧
        ∀ x ∈ threadCkpts db tid, x.created_at ≤ c.created_at) := by
  refine ⟨?p1, ?p2, ?p3, ?p4, ?p5⟩
  · intro e he
    unfold getTuple
    rw [he]
  · intro tid h1 h2
    unfold getTuple
    rw [h1]
    simp only []
    rw [h2]
  · intro tid t cid h1 h2 h3 h4
    unfold getTuple
    rw [h1]
    simp only []
    rw [h2]
    simp only []
    rw [h3]
    simp only []
    rw [h4]
  · intro tid t h1 h2 h3 h4
    unfold getTuple
    rw [h1]
    simp only []
    rw [h2]
    simp only []
    rw [h3]
    simp only []
    rw [h4]
    rfl
  · intro tid t c ss ckv h1 h2 h3 h4 h5 h6
    refine ⟨?pg, (latestCkpt_spec h4).1, (latestCkpt_spec h4).2⟩
    unfold getTuple
    rw [h1]
    simp only []
    rw [h2]
    simp only []
    rw [h3]
    simp only []
    rw [h4]
    simp only []
    rw [h5, ex_bind_ok, h6, ex_bind_ok]

/-- Witness for C3 on a concrete two-checkpoint database. -/
theorem get_tuple_miss_contract_witness :
    getTuple ⟨[⟨"t1", none, "chatbot", .pdict [], 0, 0, true⟩,
        ⟨"t2", none, "chatbot", .pdict [], 0, 0, true⟩],
      [⟨"t1", "c1", none, .pdict [], .pdict [], .pint 1, 0⟩,
        ⟨"t1", "c2", none, .pdict [("k", .pint 2)], .pdict [("m", .pint 7)],
          .pint 1, 1⟩], 2⟩
      ⟨none, none, none, none, none⟩ = .ok none ∧
    getTuple ⟨[⟨"t1", none, "chatbot", .pdict [], 0, 0, true⟩,
        ⟨"t2", none, "chatbot", .pdict [], 0, 0, true⟩],
      [⟨"t1", "c1", none, .pdict [], .pdict [], .pint 1, 0⟩,
        ⟨"t1", "c2", none, .pdict [("k", .pint 2)], .pdict [("m", .pint 7)],
          .pint 1, 1⟩], 2⟩
      ⟨some "t-missing", none, none, none, none⟩ = .ok none ∧
    getTuple ⟨[⟨"t1", none, "chatbot", .pdict [], 0, 0, true⟩,
        ⟨"t2", none, "chatbot", .pdict [], 0, 0, true⟩],
      [⟨"t1", "c1", none, .pdict [], .pdict [], .pint 1, 0⟩,
        ⟨"t1", "c2", none, .pdict [("k", .pint 2)], .pdict [("m", .pint 7)],
          .pint 1, 1⟩], 2⟩
      ⟨some "t1", some "cX", none, none, none⟩ = .ok none ∧
    getTuple ⟨[⟨"t1", none, "chatbot", .pdict [], 0, 0, true⟩,
        ⟨"t2", none, "chatbot", .pdict [], 0, 0, true⟩],
      [⟨"t1", "c1", none, .pdict [], .pdict [], .pint 1, 0⟩,
        ⟨"t1", "c2", none, .pdict [("k", .pint 2)], .pdict [("m", .pint 7)],
          .pint 1, 1⟩], 2⟩
      ⟨some "t2", none, none, none, none⟩ = .ok none ∧
    getTuple ⟨[⟨"t1", none, "chatbot", .pdict [], 0, 0, true⟩,
        ⟨"t2", none, "chatbot", .pdict [], 0, 0, true⟩],
      [⟨"t1", "c1", none, .pdict [], .pdict [], .pint 1, 0⟩,
        ⟨"t1", "c2", none, .pdict [("k", .pint 2)], .pdict [("m", .pint 7)],
          .pint 1, 1⟩], 2⟩
      ⟨some "t1", none, none, none, none⟩ =
      .ok (some {
        config := ⟨some "t1", none, none, none, none⟩
        checkpoint := .pdict [("k", .pint 2), ("id", .pstr "c2")]
        metadata := .pdict [("m", .pint 7)] }) := by
  have h := get_tuple_miss_contract
    ⟨[⟨"t1", none, "chatbot", .pdict [], 0, 0, true⟩,
        ⟨"t2", none, "chatbot", .pdict [], 0, 0, true⟩],
      [⟨"t1", "c1", none, .pdict [], .pdict [], .pint 1, 0⟩,
        ⟨"t1", "c2", none, .pdict [("k", .pint 2)], .pdict [("m", .pint 7)],
          .pint 1, 1⟩], 2⟩
  refine ⟨(h ⟨none, none, none, none, none⟩).1 _ rfl, ?w2, ?w3, ?w4, ?w5⟩
  · exact (h ⟨some "t-missing", none, none, none, none⟩).2.1 _ rfl rfl
  · exact (h ⟨some "t1", some "cX", none, none, none⟩).2.2.1 _ _ "cX"
      rfl rfl rfl rfl
  · exact (h ⟨some "t2", none, none, none, none⟩).2.2.2.1 _ _ rfl rfl rfl rfl
  · exact ((h ⟨some "t1", none, none, none, none⟩).2.2.2.2 _ _ _ _ _
      rfl rfl rfl rfl rfl rfl).1

/-- Counterexample to C1 as stated: `put` with the same checkpoint state on a
checkpoint id that already exists in the thread updates the existing row,
whose `created_at` (set by `auto_now_add` at creation) is older than a
sibling's; the immediately following `getTuple` with no checkpoint id then
returns the sibling `c2`, not the state just written under `c1` — so the
universally quantified round-trip fails.  The first conjunct runs
`put c1; put c2; put c1` and shows `getTuple` returns id `"c2"`; the second
computes the id the claim demands, `"c1"`; the third separates them. -/
theorem put_get_roundtrip_counterexample :
    (do
      let r1 ← put ⟨[], [], 0⟩ ⟨some "t1", none, none, none, none⟩
        [("id", .pstr "c1")] (.pdict []) []
      let r2 ← put r1.1 ⟨some "t1", none, none, none, none⟩
        [("id", .pstr "c2")] (.pdict []) []
      let r3 ← put r2.1 ⟨some "t1", none, none, none, none⟩
        [("id", .pstr "c1"), ("flag", .pstr "second-write")] (.pdict []) []
      let o ← getTuple r3.1 ⟨some "t1", none, none, none, none⟩
      pure (o.map (fun (tp : CkptTuple) =>
        match tp.checkpoint with
        | .pdict d => pyGet d "id"
        | _ => none)))
      = .ok (some (some (.pstr "c2"))) ∧
    (do
      let s ← toJson (.pdict [("id", .pstr "c1"),
        ("flag", .pstr "second-write")])
      let ss ← sanitizeState s
      let ckv ← mkTupleCkpt ss "c1"
      pure (match ckv with
        | .pdict d => pyGet d "id"
        | _ => none)) = .ok (some (.pstr "c1")) ∧
    (PyVal.pstr "c2") ≠ (PyVal.pstr "c1") := by
  refine ⟨rfl, rfl, ?hne⟩
  intro hcon
  injection hcon with hs
  exact absurd hs (by decide)

/-- C1 (amended): the put/getTuple round-trip holds for a put that creates
a new checkpoint row.  On a well-formed database, after a successful `put`
whose assigned checkpoint id is not already present in the thread, an
immediately following `getTuple` on the same config with no checkpoint id
supplied returns a present tuple whose state is
`sanitize(to_jsonable(S))` merged with the assigned checkpoint id under
`"id"`, and whose metadata is `to_jsonable(M)`.  (The unamended claim fails
when the put overwrites an existing row: see the counterexample.) -/
theorem put_get_roundtrip (db : DB) (cfg : Config)
    (ck : List (String × PyVal)) (m : PyVal) (nv : List (String × Int))
    (db' : DB) (tp : CkptTuple) (tid : String) (s ss mt ckv : PyVal)
    (hwf : wfDB db = true)
    (htid : getThreadId cfg = .ok tid)
    (hnoc : cfgCheckpointId cfg = none)
    (h : put db cfg ck m nv = .ok (db', tp))
    (hs : toJson (.pdict ck) = .ok s)
    (hmt : toJson m = .ok mt)
    (hfresh : findCkpt db tid
      (extractCheckpointId ck cfg (uuidFresh db.now)) = none)
    (hss : sanitizeState s = .ok ss)
    (hckv : mkTupleCkpt ss
      (extractCheckpointId ck cfg (uuidFresh db.now)) = .ok ckv) :
    getTuple db' cfg = .ok (some {
      config := cfg
      checkpoint := ckv
      metadata := mt }) := by
  obtain ⟨db1, t, s2, mt2, sd, hg, hs2, hmt2, hsd, hdb, htp⟩ := put_shape h
  have hseq : s2 = s := by
    have := hs.symm.trans hs2
    injection this with hh
    exact hh.symm
  have hmeq : mt2 = mt := by
    have := hmt.symm.trans hmt2
    injection this with hh
    exact hh.symm
  obtain ⟨hck1, hnow1, htid2⟩ := goc_shape hg
  rw [hseq] at hsd hdb
  rw [hmeq] at hdb
  have htt : t.thread_id = tid := by
    have := htid.symm.trans htid2
    injection this with hh
    exact hh.symm
  rw [hnow1, htt] at hdb
  have hfresh1 : findCkpt db1 tid
      (extractCheckpointId ck cfg (uuidFresh db.now)) = none := by
    rw [findCkpt_congr hck1]
    exact hfresh
  have hrow : db'.ckpts = db.ckpts ++ [{
      thread_id := tid
      checkpoint_id := extractCheckpointId ck cfg (uuidFresh db.now)
      parent_checkpoint := resolveParent db1 tid ck
      state := s
      checkpoint_metadata := mt
      version := computeVersion ck nv
      created_at := db.now }] := by
    rw [hdb, putCore_ckpts, uoc_insert hfresh1, hck1, hnow1]
  have hft : findThread db1 t.thread_id = some t := goc_findThread hg
  rw [htt] at hft
  obtain ⟨t2, hft2⟩ : ∃ t2, findThread db' tid = some t2 := by
    rw [hdb]
    exact putCore_findThread hft
  have hallwf : ∀ c ∈ db.ckpts, c.created_at < db.now := by
    simp only [wfDB, Bool.and_eq_true, List.all_eq_true,
      decide_eq_true_eq] at hwf
    exact hwf.2
  have hlat : latestCkpt (threadCkpts db' tid) = some {
      thread_id := tid
      checkpoint_id := extractCheckpointId ck cfg (uuidFresh db.now)
      parent_checkpoint := resolveParent db1 tid ck
      state := s
      checkpoint_metadata := mt
      version := computeVersion ck nv
      created_at := db.now } := by
    rw [threadCkpts_append_own rfl db' hrow]
    apply latest_append_strict_max
    intro x hx
    exact hallwf x (mem_threadCkpts hx).1
  unfold getTuple
  rw [htid]
  simp only []
  rw [hft2]
  simp only []
  rw [hnoc]
  simp only []
  rw [hlat]
  simp only []
  rw [hss, ex_bind_ok, hckv, ex_bind_ok]

/-- Witness for C1 (amended) on a fresh single-put database. -/
theorem put_get_roundtrip_witness :
    wfDB ⟨[], [], 0⟩ = true ∧
    put ⟨[], [], 0⟩ ⟨some "t1", none, none, none, none⟩
      [("id", .pstr "c1")] (.pdict [("m", .pint 5)]) [] =
      .ok (⟨[⟨"t1", none, "chatbot", .pdict [], 0, 0, true⟩],
        [⟨"t1", "c1", none, .pdict [("id", .pstr "c1")],
          .pdict [("m", .pint 5)], .pint 1, 0⟩], 1⟩,
        ⟨⟨some "t1", none, none, none, none⟩, .pdict [("id", .pstr "c1")],
          .pdict [("m", .pint 5)]⟩) ∧
    getTuple (⟨[⟨"t1", none, "chatbot", .pdict [], 0, 0, true⟩],
      [⟨"t1", "c1", none, .pdict [("id", .pstr "c1")],
        .pdict [("m", .pint 5)], .pint 1, 0⟩], 1⟩ : DB)
      ⟨some "t1", none, none, none, none⟩ =
      .ok (some {
        config := ⟨some "t1", none, none, none, none⟩
        checkpoint := .pdict [("id", .pstr "c1")]
        metadata := .pdict [("m", .pint 5)] }) :=
  ⟨rfl, rfl, put_get_roundtrip ⟨[], [], 0⟩ ⟨some "t1", none, none, none, none⟩
    [("id", .pstr "c1")] (.pdict [("m", .pint 5)]) []
    (⟨[⟨"t1", none, "chatbot", .pdict [], 0, 0, true⟩],
      [⟨"t1", "c1", none, .pdict [("id", .pstr "c1")],
        .pdict [("m", .pint 5)], .pint 1, 0⟩], 1⟩ : DB)
    (⟨⟨some "t1", none, none, none, none⟩, .pdict [("id", .pstr "c1")],
      .pdict [("m", .pint 5)]⟩ : CkptTuple)
    "t1" (.pdict [("id", .pstr "c1")]) (.pdict [("id", .pstr "c1")])
    (.pdict [("m", .pint 5)]) (.pdict [("id", .pstr "c1")])
    rfl rfl rfl rfl rfl rfl rfl rfl rfl⟩

/-- C2: two `put` calls carrying the same thread token and the same
checkpoint id leave exactly one checkpoint row for that `(thread,
checkpoint_id)` pair, and its state, metadata, parent reference and version
are the second call's; the first call's values for those mutable fields are
fully overwritten, not appended alongside (the row filter returns a
one-element list holding only the second call's data). -/
theorem put_same_id_overwrites (db : DB) (cfg : Config)
    (ck1 : List (String × PyVal)) (m1 : PyVal) (nv1 : List (String × Int))
    (ck2 : List (String × PyVal)) (m2 : PyVal) (nv2 : List (String × Int))
    (db1 db2 : DB) (tp1 tp2 : CkptTuple) (tid cid : String) (s2 mt2 : PyVal)
    (hdc : distinctKeysC db.ckpts = true)
    (htid : getThreadId cfg = .ok tid)
    (h1 : put db cfg ck1 m1 nv1 = .ok (db1, tp1))
    (h2 : put db1 cfg ck2 m2 nv2 = .ok (db2, tp2))
    (_hc1 : extractCheckpointId ck1 cfg (uuidFresh db.now) = cid)
    (hc2 : extractCheckpointId ck2 cfg (uuidFresh db1.now) = cid)
    (hs2 : toJson (.pdict ck2) = .ok s2)
    (hm2 : toJson m2 = .ok mt2) :
    ∃ ts, db2.ckpts.filter
        (fun c => c.thread_id == tid && c.checkpoint_id == cid) =
      [{ thread_id := tid
         checkpoint_id := cid
         parent_checkpoint := resolveParent db1 tid ck2
         state := s2
         checkpoint_metadata := mt2
         version := computeVersion ck2 nv2
         created_at := ts }] := by
  obtain ⟨db1b, t, s2b, mt2b, sd2, hg2, hs2b, hmt2b, hsd2, hdb2, htp2⟩ :=
    put_shape h2
  have hseq : s2b = s2 := by
    have := hs2.symm.trans hs2b
    injection this with hh
    exact hh.symm
  have hmeq : mt2b = mt2 := by
    have := hm2.symm.trans hmt2b
    injection this with hh
    exact hh.symm
  obtain ⟨hck1, hnow1, htid2⟩ := goc_shape hg2
  have htt : t.thread_id = tid := by
    have := htid.symm.trans htid2
    injection this with hh
    exact hh.symm
  rw [hseq, hmeq, htt, hnow1, hc2] at hdb2
  have hdistinct1 : distinctKeysC db1b.ckpts = true := by
    rw [hck1]
    exact put_distinct hdc h1
  have hpar : resolveParent db1b tid ck2 = resolveParent db1 tid ck2 :=
    resolveParent_congr hck1 tid ck2
  obtain ⟨ts, hts⟩ := @uoc_unique db1b tid cid
    (resolveParent db1b tid ck2) s2 mt2 (computeVersion ck2 nv2) hdistinct1
  refine ⟨ts, ?hfin⟩
  rw [hdb2, putCore_ckpts, ← hpar]
  exact hts

/-- Witness for C2: two puts with checkpoint id `"c1"` on thread `"t1"`;
afterwards there is exactly one `("t1","c1")` row and it holds the second
call's state, metadata and version. -/
theorem put_same_id_overwrites_witness :
    put ⟨[], [], 0⟩ ⟨some "t1", none, none, none, none⟩
      [("id", .pstr "c1"), ("v1", .pstr "a")] (.pdict [("m", .pint 1)])
      [("messages", 3)] =
    .ok (⟨[⟨"t1", none, "chatbot", .pdict [], 0, 0, true⟩],
      [⟨"t1", "c1", none, .pdict [("id", .pstr "c1"), ("v1", .pstr "a")],
        .pdict [("m", .pint 1)], .pint 3, 0⟩], 1⟩,
      ⟨⟨some "t1", none, none, none, none⟩,
        .pdict [("id", .pstr "c1"), ("v1", .pstr "a")],
        .pdict [("m", .pint 1)]⟩) ∧
    put (⟨[⟨"t1", none, "chatbot", .pdict [], 0, 0, true⟩],
      [⟨"t1", "c1", none, .pdict [("id", .pstr "c1"), ("v1", .pstr "a")],
        .pdict [("m", .pint 1)], .pint 3, 0⟩], 1⟩ : DB)
      ⟨some "t1", none, none, none, none⟩
      [("id", .pstr "c1"), ("v2", .pstr "b")] (.pdict [("m", .pint 2)])
      [("messages", 4)] =
    .ok (⟨[⟨"t1", none, "chatbot", .pdict [], 0, 1, true⟩],
      [⟨"t1", "c1", none, .pdict [("id", .pstr "c1"), ("v2", .pstr "b")],
        .pdict [("m", .pint 2)], .pint 4, 0⟩], 2⟩,
      ⟨⟨some "t1", none, none, none, none⟩,
        .pdict [("id", .pstr "c1"), ("v2", .pstr "b")],
        .pdict [("m", .pint 2)]⟩) ∧
    (⟨[⟨"t1", none, "chatbot", .pdict [], 0, 1, true⟩],
      [⟨"t1", "c1", none, .pdict [("id", .pstr "c1"), ("v2", .pstr "b")],
        .pdict [("m", .pint 2)], .pint 4, 0⟩], 2⟩ : DB).ckpts.filter
        (fun c => c.thread_id == "t1" && c.checkpoint_id == "c1") =
      [⟨"t1", "c1", none, .pdict [("id", .pstr "c1"), ("v2", .pstr "b")],
        .pdict [("m", .pint 2)], .pint 4, 0⟩] := by
  refine ⟨rfl, rfl, ?hw⟩
  obtain ⟨ts, _hts⟩ := put_same_id_overwrites ⟨[], [], 0⟩
    ⟨some "t1", none, none, none, none⟩
    [("id", .pstr "c1"), ("v1", .pstr "a")] (.pdict [("m", .pint 1)])
    [("messages", 3)]
    [("id", .pstr "c1"), ("v2", .pstr "b")] (.pdict [("m", .pint 2)])
    [("messages", 4)]
    (⟨[⟨"t1", none, "chatbot", .pdict [], 0, 0, true⟩],
      [⟨"t1", "c1", none, .pdict [("id", .pstr "c1"), ("v1", .pstr "a")],
        .pdict [("m", .pint 1)], .pint 3, 0⟩], 1⟩ : DB)
    (⟨[⟨"t1", none, "chatbot", .pdict [], 0, 1, true⟩],
      [⟨"t1", "c1", none, .pdict [("id", .pstr "c1"), ("v2", .pstr "b")],
        .pdict [("m", .pint 2)], .pint 4, 0⟩], 2⟩ : DB)
    (⟨⟨some "t1", none, none, none, none⟩,
      .pdict [("id", .pstr "c1"), ("v1", .pstr "a")],
      .pdict [("m", .pint 1)]⟩ : CkptTuple)
    (⟨⟨some "t1", none, none, none, none⟩,
      .pdict [("id", .pstr "c1"), ("v2", .pstr "b")],
      .pdict [("m", .pint 2)]⟩ : CkptTuple)
    "t1" "c1" (.pdict [("id", .pstr "c1"), ("v2", .pstr "b")])
    (.pdict [("m", .pint 2)])
    rfl rfl rfl rfl rfl rfl rfl rfl
  exact rfl

/-- The checkpoint id carried by a returned tuple (under `"id"`). -/
def tupleCkptId (t : CkptTuple) : Option PyVal :=
  match t.checkpoint with
  | .pdict d => pyGet d "id"
  | _ => none

/-- C5: on a fresh thread `"t1"`, `put c1` with `newVersions {messages: 3}`
then `put c2` (parent `c1`) with `newVersions {messages: 4}` followed by
`list("t1")` returns exactly `[c2, c1]` in descending `created_at` order,
with stored versions 3 for `c1` and 4 for `c2` (the maximum of the non-empty
`newVersions` values) and `c2`'s parent resolved to `c1`. -/
theorem list_scenario :
    (do
      let r1 ← put ⟨[], [], 0⟩ ⟨some "t1", none, none, none, none⟩
        [("id", .pstr "c1"), ("parent_checkpoint_id", .pnone)] (.pdict [])
        [("messages", 3)]
      let r2 ← put r1.1 ⟨some "t1", none, none, none, none⟩
        [("id", .pstr "c2"), ("parent_checkpoint_id", .pstr "c1")] (.pdict [])
        [("messages", 4)]
      let l ← listCkpts r2.1 ⟨some "t1", none, none, none, none⟩ none none none
      pure (l.map tupleCkptId,
        r2.1.ckpts.map (fun (c : Ckpt) =>
          (c.checkpoint_id, c.version, c.parent_checkpoint)))) =
    .ok ([some (.pstr "c2"), some (.pstr "c1")],
      [("c1", .pint 3, none), ("c2", .pint 4, some "c1")]) := rfl

theorem exMapM_ok_length {α β : Type} {f : α → Except String β} :
    ∀ {l : List α} {ys : List β}, exMapM f l = .ok ys →
      ys.length = l.length := by
  intro l
  induction l with
  | nil =>
      intro ys h
      cases h
      rfl
  | cons a t ih =>
      intro ys h
      simp only [exMapM] at h
      cases h1 : f a with
      | error e =>
          rw [h1, ex_bind_err] at h
          exact Except.noConfusion h
      | ok b =>
          rw [h1, ex_bind_ok] at h
          cases h2 : exMapM f t with
          | error e =>
              rw [h2, ex_bind_err] at h
              exact Except.noConfusion h
          | ok bs =>
              rw [h2, ex_bind_ok] at h
              cases h
              simp [ih h2]

/-- C10: `list` treats `limit=0` as no limit at all (the `if limit:`
truthiness check), returning everything, while a positive limit `n`
truncates the result to at most `n` checkpoints. -/
theorem list_limit_contract (db : DB) (cfg : Config)
    (filter : Option (List (String × PyVal))) (before : Option String) :
    listCkpts db cfg filter before (some 0) =
      listCkpts db cfg filter before none ∧
    (∀ n l, 0 < n → listCkpts db cfg filter before (some n) = .ok l →
      l.length ≤ n) := by
  constructor
  · unfold listCkpts
    cases h1 : getThreadId cfg with
    | error e => rfl
    | ok tid =>
        simp only []
        cases h2 : findThread db tid with
        | none => rfl
        | some t =>
            simp only []
            rw [if_neg (show ¬((0 : Nat) ≠ 0) from by omega)]
  · intro n l hn h
    unfold listCkpts at h
    cases h1 : getThreadId cfg with
    | error e =>
        rw [h1] at h
        cases h
        simp
    | ok tid =>
        rw [h1] at h
        simp only [] at h
        cases h2 : findThread db tid with
        | none =>
            rw [h2] at h
            cases h
            simp
        | some t =>
            rw [h2] at h
            simp only [] at h
            rw [if_pos (show n ≠ 0 from by omega)] at h
            have := exMapM_ok_length h
            rw [this]
            exact le_trans (List.length_take_le _ _) le_rfl

/-- Witness for C10 on a three-checkpoint thread. -/
theorem list_limit_contract_witness :
    listCkpts ⟨[⟨"t1", none, "chatbot", .pdict [], 0, 0, true⟩],
      [⟨"t1", "c1", none, .pdict [], .pdict [], .pint 1, 0⟩,
        ⟨"t1", "c2", none, .pdict [], .pdict [], .pint 1, 1⟩,
        ⟨"t1", "c3", none, .pdict [], .pdict [], .pint 1, 2⟩], 3⟩
      ⟨some "t1", none, none, none, none⟩ none none (some 0) =
    listCkpts ⟨[⟨"t1", none, "chatbot", .pdict [], 0, 0, true⟩],
      [⟨"t1", "c1", none, .pdict [], .pdict [], .pint 1, 0⟩,
        ⟨"t1", "c2", none, .pdict [], .pdict [], .pint 1, 1⟩,
        ⟨"t1", "c3", none, .pdict [], .pdict [], .pint 1, 2⟩], 3⟩
      ⟨some "t1", none, none, none, none⟩ none none none ∧
    (0 : Nat) < 2 ∧
    ∀ l, listCkpts ⟨[⟨"t1", none, "chatbot", .pdict [], 0, 0, true⟩],
      [⟨"t1", "c1", none, .pdict [], .pdict [], .pint 1, 0⟩,
        ⟨"t1", "c2", none, .pdict [], .pdict [], .pint 1, 1⟩,
        ⟨"t1", "c3", none, .pdict [], .pdict [], .pint 1, 2⟩], 3⟩
      ⟨some "t1", none, none, none, none⟩ none none (some 2) = .ok l →
      l.length ≤ 2 := by
  have h := list_limit_contract
    ⟨[⟨"t1", none, "chatbot", .pdict [], 0, 0, true⟩],
      [⟨"t1", "c1", none, .pdict [], .pdict [], .pint 1, 0⟩,
        ⟨"t1", "c2", none, .pdict [], .pdict [], .pint 1, 1⟩,
        ⟨"t1", "c3", none, .pdict [], .pdict [], .pint 1, 2⟩], 3⟩
    ⟨some "t1", none, none, none, none⟩ none none
  exact ⟨h.1, by decide, fun l hl => h.2 2 l (by decide) hl⟩

/-- C8: identity attach-once at the resolver.  For an existing anonymous
thread, a resolve whose config carries a truthy owner id stores that owner;
for a thread that already has an owner, any subsequent resolve (with a
different owner id, the same one, or none) leaves the stored owner
unchanged — ownership moves one way, anonymous to owned, and is never
reassigned or cleared.  The resolved thread is the row stored back. -/
theorem owner_attach_once (db : DB) (cfg : Config) (db1 : DB) (t t0 : Thread)
    (tid : String)
    (htid : getThreadId cfg = .ok tid)
    (hf : findThread db tid = some t0)
    (h : getOrCreateThread db cfg = .ok (db1, t)) :
    findThread db1 tid = some t ∧
    (t0.user_id = none → userTruthy cfg.user_id = true →
      t.user_id = cfg.user_id) ∧
    (∀ u, t0.user_id = some u → t.user_id = some u) := by
  have hft := goc_findThread h
  have htt : t.thread_id = tid := by
    have := htid.symm.trans (goc_shape h).2.2
    injection this with hh
    exact hh.symm
  rw [htt] at hft
  refine ⟨hft, ?hanon, ?howned⟩
  all_goals
    unfold getOrCreateThread at h
    simp only [] at h
    rw [htid, ex_bind_ok] at h
  all_goals
    cases hmj : toJson (.pdict (cfg.metadata.getD [])) with
    | error e =>
        rw [hmj, ex_bind_err] at h
        exact Except.noConfusion h
    | ok safeMeta =>
        rw [hmj, ex_bind_ok, hf] at h
        simp only [] at h
        by_cases hmt : (match cfg.metadata with
            | some md => !md.isEmpty
            | none => false) = true
        · rw [if_pos hmt] at h
          cases hpm : pyMetaUpdate
              (if userTruthy cfg.user_id && t0.user_id == none then
                { t0 with user_id := cfg.user_id }
              else t0).metadata safeMeta with
          | error e =>
              rw [hpm, ex_bind_err] at h
              exact Except.noConfusion h
          | ok merged =>
              rw [hpm, ex_bind_ok, ex_pure, ex_bind_ok] at h
              cases h
              first
              | (intro h0 hu
                 show (if userTruthy cfg.user_id && t0.user_id == none then
                     { t0 with user_id := cfg.user_id }
                   else t0).user_id = cfg.user_id
                 simp [hu, h0])
              | (intro u h0
                 show (if userTruthy cfg.user_id && t0.user_id == none then
                     { t0 with user_id := cfg.user_id }
                   else t0).user_id = some u
                 simp [h0])
        · rw [if_neg hmt, ex_pure, ex_bind_ok] at h
          cases h
          first
          | (intro h0 hu
             show (if userTruthy cfg.user_id && t0.user_id == none then
                 { t0 with user_id := cfg.user_id }
               else t0).user_id = cfg.user_id
             simp [hu, h0])
          | (intro u h0
             show (if userTruthy cfg.user_id && t0.user_id == none then
                 { t0 with user_id := cfg.user_id }
               else t0).user_id = some u
             simp [h0])

/-- Witness for C8: an anonymous thread acquires owner 7; a thread owned by
7 keeps owner 7 when owner 9 shows up. -/
theorem owner_attach_once_witness :
    getOrCreateThread ⟨[⟨"t1", none, "chatbot", .pdict [], 0, 0, true⟩], [], 1⟩
      ⟨some "t1", none, some 7, none, none⟩ =
      .ok (⟨[⟨"t1", some 7, "chatbot", .pdict [], 0, 0, true⟩], [], 1⟩,
        ⟨"t1", some 7, "chatbot", .pdict [], 0, 0, true⟩) ∧
    (⟨"t1", some 7, "chatbot", .pdict [], 0, 0, true⟩ : Thread).user_id
      = some 7 ∧
    getOrCreateThread ⟨[⟨"t1", some 7, "chatbot", .pdict [], 0, 0, true⟩],
        [], 1⟩ ⟨some "t1", none, some 9, none, none⟩ =
      .ok (⟨[⟨"t1", some 7, "chatbot", .pdict [], 0, 0, true⟩], [], 1⟩,
        ⟨"t1", some 7, "chatbot", .pdict [], 0, 0, true⟩) ∧
    (⟨"t1", some 7, "chatbot", .pdict [], 0, 0, true⟩ : Thread).user_id
      = some 7 := by
  have h1 := owner_attach_once
    ⟨[⟨"t1", none, "chatbot", .pdict [], 0, 0, true⟩], [], 1⟩
    ⟨some "t1", none, some 7, none, none⟩
    ⟨[⟨"t1", some 7, "chatbot", .pdict [], 0, 0, true⟩], [], 1⟩
    ⟨"t1", some 7, "chatbot", .pdict [], 0, 0, true⟩
    ⟨"t1", none, "chatbot", .pdict [], 0, 0, true⟩
    "t1" rfl rfl rfl
  have h2 := owner_attach_once
    ⟨[⟨"t1", some 7, "chatbot", .pdict [], 0, 0, true⟩], [], 1⟩
    ⟨some "t1", none, some 9, none, none⟩
    ⟨[⟨"t1", some 7, "chatbot", .pdict [], 0, 0, true⟩], [], 1⟩
    ⟨"t1", some 7, "chatbot", .pdict [], 0, 0, true⟩
    ⟨"t1", some 7, "chatbot", .pdict [], 0, 0, true⟩
    "t1" rfl rfl rfl
  exact ⟨rfl, h1.2.1 rfl rfl, rfl, h2.2.2 7 rfl⟩

theorem pyMetaUpdate_pdict (a b : List (String × PyVal)) :
    pyMetaUpdate (.pdict a) (.pdict b) = .ok (.pdict (pdictUpdate a b)) := rfl

theorem mkTupleCkpt_pdict (d : List (String × PyVal)) (cid : String) :
    mkTupleCkpt (.pdict d) cid =
      .ok (.pdict (pdictSet d "id" (.pstr cid))) := rfl

theorem resolveParent_miss {d : DB} {tid : String}
    {ck : List (String × PyVal)} {pid : String}
    (hp : pyGetD ck "parent_checkpoint_id" .pnone = .pstr pid)
    (hne : pid ≠ "") (hmiss : findCkpt d tid pid = none) :
    resolveParent d tid ck = none := by
  unfold resolveParent
  simp only []
  rw [hp]
  rw [if_pos (show pyTruthy (.pstr pid) = true by simp [pyTruthy, hne])]
  simp only []
  rw [hmiss]

/-- C7: `put` raises exactly when the config carries no usable thread id.
(1) a missing thread token propagates as the `ValueError`; (2) with a
thread token, `put` succeeds whenever the payloads serialize (the stored
thread metadata being a JSON dict, as the `JSONField` guarantees); (3) in
particular a payload naming a `parent_checkpoint_id` that does not exist in
the thread is not an error: the row is saved with `parent_checkpoint`
cleared to `NULL`. -/
theorem put_raises_iff_thread_token (db : DB) (cfg : Config)
    (ck : List (String × PyVal)) (m : PyVal) (nv : List (String × Int)) :
    (∀ e, getThreadId cfg = .error e → put db cfg ck m nv = .error e) ∧
    (∀ tid s mt cm,
      getThreadId cfg = .ok tid →
      toJson (.pdict (cfg.metadata.getD [])) = .ok cm →
      toJson (.pdict ck) = .ok s → toJson m = .ok mt →
      (∀ t0, findThread db tid = some t0 → ∃ d0, t0.metadata = .pdict d0) →
      ∃ db2 tp, put db cfg ck m nv = .ok (db2, tp)) ∧
    (∀ tid db2 tp pid,
      distinctKeysC db.ckpts = true →
      getThreadId cfg = .ok tid →
      pyGetD ck "parent_checkpoint_id" .pnone = .pstr pid →
      pid ≠ "" →
      findCkpt db tid pid = none →
      put db cfg ck m nv = .ok (db2, tp) →
      ∃ s mt ts, toJson (.pdict ck) = .ok s ∧ toJson m = .ok mt ∧
        db2.ckpts.filter (fun c => c.thread_id == tid &&
          c.checkpoint_id == extractCheckpointId ck cfg (uuidFresh db.now)) =
        [{ thread_id := tid
           checkpoint_id := extractCheckpointId ck cfg (uuidFresh db.now)
           parent_checkpoint := none
           state := s
           checkpoint_metadata := mt
           version := computeVersion ck nv
           created_at := ts }]) := by
  refine ⟨?perr, ?pok, ?pparent⟩
  · intro e he
    unfold put
    simp only []
    rw [he, ex_bind_err]
  · intro tid s mt cm htid hcm hs hmt hmeta
    have hgoc : ∃ db1 t, getOrCreateThread db cfg = .ok (db1, t) := by
      unfold getOrCreateThread
      simp only []
      rw [htid, ex_bind_ok, hcm, ex_bind_ok]
      cases hf : findThread db tid with
      | none =>
          simp only []
          exact ⟨_, _, rfl⟩
      | some t0 =>
          simp only []
          obtain ⟨d0, hd0⟩ := hmeta t0 hf
          obtain ⟨dm, hdm⟩ := toJson_pdict_shape hcm
          by_cases hmtc : (match cfg.metadata with
              | some md => !md.isEmpty
              | none => false) = true
          · rw [if_pos hmtc]
            have ht1m : (if userTruthy cfg.user_id && t0.user_id == none then
                { t0 with user_id := cfg.user_id } else t0).metadata
                = .pdict d0 := by
              split
              · exact hd0
              · exact hd0
            rw [ht1m, hdm, pyMetaUpdate_pdict, ex_bind_ok, ex_pure,
              ex_bind_ok]
            exact ⟨_, _, rfl⟩
          · rw [if_neg hmtc, ex_pure, ex_bind_ok]
            exact ⟨_, _, rfl⟩
    obtain ⟨db1, t, hg⟩ := hgoc
    unfold put
    simp only []
    rw [htid, ex_bind_ok, hg, ex_bind_ok]
    simp only []
    rw [hs, ex_bind_ok, hmt, ex_bind_ok]
    obtain ⟨sd, hsd⟩ := toJson_pdict_shape hs
    rw [hsd, mkTupleCkpt_pdict, ex_bind_ok]
    exact ⟨_, _, rfl⟩
  · intro tid db2 tp pid hdc htid hp hne hmiss hput
    obtain ⟨db1, t, s, mt, sd, hg, hs, hmt, hsd, hdb, htp⟩ := put_shape hput
    have hck : db1.ckpts = db.ckpts := (goc_shape hg).1
    have hnow : db1.now = db.now := (goc_shape hg).2.1
    have htt : t.thread_id = tid := by
      have h2 := (goc_shape hg).2.2
      rw [htid] at h2
      injection h2 with h3
      exact h3.symm
    have hpar2 : resolveParent db1 tid ck = none := by
      rw [resolveParent_congr hck tid ck]
      exact resolveParent_miss hp hne hmiss
    have hdc1 : distinctKeysC db1.ckpts = true := by
      rw [hck]
      exact hdc
    obtain ⟨ts, hfil⟩ := @uoc_unique db1 tid
      (extractCheckpointId ck cfg (uuidFresh db.now)) none s mt
      (computeVersion ck nv) hdc1
    refine ⟨s, mt, ts, hs, hmt, ?_⟩
    rw [hdb, putCore_ckpts, htt, hpar2, hnow]
    exact hfil

/-- Witness for C7: a config with no thread id makes `put` raise the
`ValueError`; with a thread id, a payload whose `parent_checkpoint_id`
names the nonexistent checkpoint `"ghost"` is saved without error and with
no parent. -/
theorem put_raises_iff_thread_token_witness :
    put ⟨[], [], 0⟩ ⟨none, none, none, none, none⟩
      [("id", .pstr "c1")] (.pdict []) [] =
      .error "ValueError: thread_id is required in config" ∧
    (∃ db2 tp, put ⟨[], [], 0⟩ ⟨some "t1", none, none, none, none⟩
      [("id", .pstr "c1"), ("parent_checkpoint_id", .pstr "ghost")]
      (.pdict []) [] = .ok (db2, tp)) ∧
    ∃ s mt ts,
      toJson (.pdict [("id", .pstr "c1"),
        ("parent_checkpoint_id", .pstr "ghost")]) = .ok s ∧
      toJson (.pdict []) = .ok mt ∧
      (⟨[⟨"t1", none, "chatbot", .pdict [], 0, 0, true⟩],
        [⟨"t1", "c1", none,
          .pdict [("id", .pstr "c1"),
            ("parent_checkpoint_id", .pstr "ghost")],
          .pdict [], .pint 1, 0⟩], 1⟩ : DB).ckpts.filter
          (fun c => c.thread_id == "t1" && c.checkpoint_id == "c1") =
      [{ thread_id := "t1"
         checkpoint_id := "c1"
         parent_checkpoint := none
         state := s
         checkpoint_metadata := mt
         version := .pint 1
         created_at := ts }] := by
  have h0 := put_raises_iff_thread_token ⟨[], [], 0⟩
    ⟨none, none, none, none, none⟩ [("id", .pstr "c1")] (.pdict []) []
  have h1 := put_raises_iff_thread_token ⟨[], [], 0⟩
    ⟨some "t1", none, none, none, none⟩
    [("id", .pstr "c1"), ("parent_checkpoint_id", .pstr "ghost")]
    (.pdict []) []
  refine ⟨h0.1 "ValueError: thread_id is required in config" rfl,
    h1.2.1 "t1"
      (.pdict [("id", .pstr "c1"), ("parent_checkpoint_id", .pstr "ghost")])
      (.pdict []) (.pdict []) rfl rfl rfl rfl
      (fun t0 h => Option.noConfusion h), ?_⟩
  obtain ⟨s, mt, ts, hs, hmt, hfil⟩ := h1.2.2 "t1"
    ⟨[⟨"t1", none, "chatbot", .pdict [], 0, 0, true⟩],
      [⟨"t1", "c1", none,
        .pdict [("id", .pstr "c1"), ("parent_checkpoint_id", .pstr "ghost")],
        .pdict [], .pint 1, 0⟩], 1⟩
    ⟨⟨some "t1", none, none, none, none⟩,
      .pdict [("id", .pstr "c1"), ("parent_checkpoint_id", .pstr "ghost")],
      .pdict []⟩
    "ghost" rfl rfl rfl (by decide) rfl rfl
  exact ⟨s, mt, ts, hs, hmt, hfil⟩

/-- The single-quote character, written numerically. -/
def quoteChar : Char := Char.ofNat 39

/-- The regex fragment raw ([^r]*)r where r is the single quote: take
characters up to the next quote; fail when no closing quote remains. -/
def captureUntilQuote : List Char → Option (List Char)
  | [] => none
  | c :: t =>
      if c = quoteChar then some []
      else (captureUntilQuote t).map (fun cap => c :: cap)

/-- Leftmost-match scan for the pattern 1 regex of
`ChatAssistant._extract_content_from_stringified`
(raw content=r([^r]*)r with r the single quote). -/
def scanPattern1 : List Char → Option (List Char)
  | [] => none
  | c :: t =>
      if ("content=".data ++ [quoteChar]).isPrefixOf (c :: t) then
        match captureUntilQuote (List.drop 8 t) with
        | some cap => some cap
        | none => scanPattern1 t
      else scanPattern1 t

/-- The literal head of the pattern 2 regex (rtextr: with r the single
quote). -/
def pat2lit : List Char := [quoteChar] ++ "text".data ++ [quoteChar, ':']

/-- Leftmost-match scan for the pattern 2 regex (the rtextr: literal, then
optional whitespace, then a quoted capture). -/
def scanPattern2 : List Char → Option (List Char)
  | [] => none
  | c :: t =>
      if pat2lit.isPrefixOf (c :: t) then
        match (List.drop 6 t).dropWhile (fun ch => ch.isWhitespace) with
        | c2 :: t2 =>
            if c2 = quoteChar then
              match captureUntilQuote t2 with
              | some cap => some cap
              | none => scanPattern2 t
            else scanPattern2 t
        | [] => scanPattern2 t
      else scanPattern2 t

/-- Python `pat in s` on character lists. -/
def occursL (pat : List Char) : List Char → Bool
  | [] => pat.isEmpty
  | c :: t => pat.isPrefixOf (c :: t) || occursL pat t

/-- Python `pat in s` on strings. -/
def occursStr (pat s : String) : Bool := occursL pat.data s.data

/-- `s.lower()` (character-wise, which is what the indicator check needs:
every indicator is ASCII). -/
def lowerStr (s : String) : String := String.mk (s.data.map Char.toLower)

/-- `ChatAssistant._extract_content_from_stringified`: pattern 1
(quoted `content=`), then pattern 2 (a quoted `text` field), then the
empty-content literal checks, else `None`. -/
def extractContentFromStringified (s : String) : Option String :=
  match scanPattern1 s.data with
  | some cap => some (String.mk cap)
  | none =>
      match scanPattern2 s.data with
      | some cap => some (String.mk cap)
      | none =>
          if occursStr (String.mk ("content=".data ++ [quoteChar, quoteChar]))
              s || occursStr "content=\x22\x22" s then some ""
          else none

/-- `ChatAssistant._get_role_from_stringified`. -/
def getRoleFromStringified (s : String) : String :=
  if "HumanMessage".data.isPrefixOf s.data || occursStr "HumanMessage(" s then
    "user"
  else if "AIMessage".data.isPrefixOf s.data || occursStr "AIMessage(" s then
    "assistant"
  else if occursStr "function_call" s || occursStr "tool_calls" s then
    "assistant"
  else "user"

/-- The transient tool-failure markers dropped by `get_history`. -/
def errorIndicators : List String :=
  ["error searching", "error embedding", "resource_exhausted",
   "429 resource_exhausted", "quota exceeded", "error:"]

/-- Python `v == s` for a string literal `s` (used for the
`msg_type in (...)` membership tests). -/
def pyEqStrB (v : PyVal) (s : String) : Bool :=
  match v with
  | .pstr t => t == s
  | _ => false

/-- The role/content resolution at the top of the `get_history` loop body:
message objects (`hasattr(msg, "content")`), dict messages, stringified
messages; everything else leaves content `None`, to be skipped. -/
def msgRoleContent (msg : PyVal) : Option (String × PyVal) :=
  match msg with
  | .pmsg kind c _ _ _ _ _ _ _ =>
      some (if kind = MsgKind.ai then "assistant" else "user", c)
  | .pdict d =>
      let mt := match pyGet d "type" with
        | some v => v
        | none => pyGetD d "role" (.pstr "unknown")
      let role := if pyEqStrB mt "human" || pyEqStrB mt "user" then "user"
        else if pyEqStrB mt "ai" || pyEqStrB mt "assistant" then "assistant"
        else "user"
      some (role, pyGetD d "content" (.pstr ""))
  | .pstr s =>
      match extractContentFromStringified s with
      | some c => some (getRoleFromStringified s, .pstr c)
      | none => none
  | _ => none

/-- The error-indicator gate at the bottom of the loop body: drop the
message when any marker occurs in `str(content).lower()`. -/
def noiseCheck (role : String) (c : PyVal) : Option (String × PyVal) :=
  if errorIndicators.any (fun ind => occursStr ind (lowerStr (pyStr c))) then
    none
  else some (role, c)

/-- One iteration of the `get_history` message loop: `none` models
`continue`, `some` an appended `(role, content)` entry, `error` a raised
exception (the `"\n".join` on non-string text parts). -/
def historyStep (msg : PyVal) : Except String (Option (String × PyVal)) :=
  match msgRoleContent msg with
  | none => .ok none
  | some (role, content) =>
      if (match content with
          | PyVal.pnone => true
          | PyVal.pstr s => s == ""
          | _ => false) then .ok none
      else
        match content with
        | .plist parts =>
            let ts := extractTexts parts
            if ts.isEmpty then .ok none
            else do
              let ss ← exMapM strOfPy ts
              .ok (noiseCheck role (.pstr (String.intercalate "\n" ss)))
        | c => .ok (noiseCheck role c)

/-- The `get_history` loop with its `history` accumulator. -/
def historyLoop : List PyVal → List (String × PyVal) →
    Except String (List (String × PyVal))
  | [], acc => .ok acc
  | m :: t, acc => do
      let r ← historyStep m
      match r with
      | none => historyLoop t acc
      | some e => historyLoop t (acc ++ [e])

/-- The projection of raw checkpoint messages to displayed history. -/
def projectHistory (msgs : List PyVal) :
    Except String (List (String × PyVal)) :=
  historyLoop msgs []

/-- `ChatAssistant.get_history`: pull the tuple, walk
`channel_values.messages` (Python iteration over strings and dicts yields
characters and keys), and map every raised exception to `[]` through the
enclosing `try`. -/
def getHistory (db : DB) (cfg : Config) : List (String × PyVal) :=
  match (do
      let o ← getTuple db cfg
      match o with
      | none => .ok []
      | some tpl =>
          match tpl.checkpoint with
          | .pdict d =>
              match pyGetD d "channel_values" (.pdict []) with
              | .pdict cvd =>
                  match pyGetD cvd "messages" (.plist []) with
                  | .plist ms => projectHistory ms
                  | .ptuple ms => projectHistory ms
                  | .pset ms => projectHistory ms
                  | .pstr s => projectHistory (s.data.map
                      (fun ch => PyVal.pstr (String.mk [ch])))
                  | .pdict md => projectHistory (md.map
                      (fun (kv : String × PyVal) => PyVal.pstr kv.1))
                  | _ => .error "TypeError: object is not iterable"
              | _ => .error "AttributeError: object has no attribute get"
          | _ => .error "AttributeError: object has no attribute get") with
  | .ok h => h
  | .error _ => []

theorem isPrefixOf_map (f : Char → Char) :
    ∀ {pat l : List Char}, pat.isPrefixOf l = true →
      (pat.map f).isPrefixOf (l.map f) = true := by
  intro pat
  induction pat with
  | nil =>
      intro l h
      simp [List.isPrefixOf]
  | cons a as ih =>
      intro l h
      cases l with
      | nil => exact absurd h (by simp [List.isPrefixOf])
      | cons b bs =>
          simp only [List.isPrefixOf, List.map] at h ⊢
          rw [Bool.and_eq_true] at h ⊢
          refine ⟨?_, ih h.2⟩
          have hab : a = b := by simpa using h.1
          simp [hab]

theorem occursL_map (f : Char → Char) :
    ∀ {pat l : List Char}, occursL pat l = true →
      occursL (pat.map f) (l.map f) = true := by
  intro pat l
  induction l with
  | nil =>
      intro h
      cases pat with
      | nil => rfl
      | cons c cs => exact absurd h (by simp [occursL, List.isEmpty])
  | cons c t ih =>
      intro h
      simp only [occursL, List.map] at h ⊢
      rw [Bool.or_eq_true] at h ⊢
      cases h with
      | inl h1 =>
          refine Or.inl ?_
          have h2 := isPrefixOf_map f h1
          simpa using h2
      | inr h2 => exact Or.inr (ih h2)

theorem occursStr_lower {pat s : String}
    (hp : pat.data.map Char.toLower = pat.data)
    (h : occursStr pat s = true) : occursStr pat (lowerStr s) = true := by
  have h2 := occursL_map Char.toLower h
  rw [hp] at h2
  exact h2

theorem noiseCheck_some {role : String} {c : PyVal} {e : String × PyVal}
    (h : noiseCheck role c = some e) :
    ∀ ind ∈ errorIndicators, occursStr ind (lowerStr (pyStr e.2)) = false := by
  unfold noiseCheck at h
  by_cases ha : (errorIndicators.any
      (fun ind => occursStr ind (lowerStr (pyStr c)))) = true
  · rw [if_pos ha] at h
    exact Option.noConfusion h
  · rw [if_neg ha] at h
    injection h with h2
    intro ind hind
    rw [← h2]
    have ha2 : (errorIndicators.any
        (fun ind => occursStr ind (lowerStr (pyStr c)))) = false :=
      Bool.eq_false_iff.mpr ha
    have ha3 := List.any_eq_false.mp ha2 ind hind
    exact Bool.eq_false_iff.mpr ha3

theorem historyStep_some {m : PyVal} {e : String × PyVal}
    (h : historyStep m = .ok (some e)) :
    ∀ ind ∈ errorIndicators, occursStr ind (lowerStr (pyStr e.2)) = false := by
  unfold historyStep at h
  cases hrc : msgRoleContent m with
  | none =>
      rw [hrc] at h
      simp only [] at h
      injection h with h2
      exact Option.noConfusion h2
  | some rc =>
      obtain ⟨role, content⟩ := rc
      rw [hrc] at h
      simp only [] at h
      cases content with
      | pnone => simp at h
      | pstr s =>
          simp only [] at h
          by_cases hs0 : (s == "") = true
          · rw [if_pos hs0] at h
            injection h with h2
            exact Option.noConfusion h2
          · rw [if_neg hs0] at h
            injection h with h2
            exact noiseCheck_some h2
      | plist parts =>
          simp only [Bool.false_eq_true, if_false] at h
          by_cases hts : (extractTexts parts).isEmpty = true
          · rw [if_pos hts] at h
            injection h with h2
            exact Option.noConfusion h2
          · rw [if_neg hts] at h
            cases hss : exMapM strOfPy (extractTexts parts) with
            | error er =>
                rw [hss, ex_bind_err] at h
                exact Except.noConfusion h
            | ok ss =>
                rw [hss, ex_bind_ok] at h
                injection h with h2
                exact noiseCheck_some h2
      | pbool b =>
          simp only [Bool.false_eq_true, if_false] at h
          injection h with h2
          exact noiseCheck_some h2
      | pint n =>
          simp only [Bool.false_eq_true, if_false] at h
          injection h with h2
          exact noiseCheck_some h2
      | ptuple xs =>
          simp only [Bool.false_eq_true, if_false] at h
          injection h with h2
          exact noiseCheck_some h2
      | pset xs =>
          simp only [Bool.false_eq_true, if_false] at h
          injection h with h2
          exact noiseCheck_some h2
      | pdict kvs =>
          simp only [Bool.false_eq_true, if_false] at h
          injection h with h2
          exact noiseCheck_some h2
      | pdatetime iso =>
          simp only [Bool.false_eq_true, if_false] at h
          injection h with h2
          exact noiseCheck_some h2
      | pchain maps =>
          simp only [Bool.false_eq_true, if_false] at h
          injection h with h2
          exact noiseCheck_some h2
      | pmsg kind c mid mname tci art tcs um ak =>
          simp only [Bool.false_eq_true, if_false] at h
          injection h with h2
          exact noiseCheck_some h2
      | pobj r =>
          simp only [Bool.false_eq_true, if_false] at h
          injection h with h2
          exact noiseCheck_some h2

theorem historyLoop_spec : ∀ (msgs : List PyVal)
    (rs : List (Option (String × PyVal))) (acc : List (String × PyVal)),
    exMapM historyStep msgs = .ok rs →
    historyLoop msgs acc = .ok (acc ++ rs.filterMap id) := by
  intro msgs
  induction msgs with
  | nil =>
      intro rs acc h
      cases h
      simp [historyLoop]
  | cons m t ih =>
      intro rs acc h
      simp only [exMapM] at h
      cases hm : historyStep m with
      | error e =>
          rw [hm, ex_bind_err] at h
          exact Except.noConfusion h
      | ok r =>
          rw [hm, ex_bind_ok] at h
          cases ht : exMapM historyStep t with
          | error e =>
              rw [ht, ex_bind_err] at h
              exact Except.noConfusion h
          | ok rs2 =>
              rw [ht, ex_bind_ok] at h
              cases h
              simp only [historyLoop]
              rw [hm, ex_bind_ok]
              cases r with
              | none =>
                  simp only []
                  rw [ih rs2 acc ht]
                  simp
              | some e =>
                  simp only []
                  rw [ih rs2 (acc ++ [e]) ht]
                  simp

/-- C9: noise filtering by the history projector.  (1) every entry that
survives into the projected history carries none of the transient
tool-failure markers in its lowercased stringified content; (2) a raw dict
message whose string content contains `"quota exceeded"` contributes
nothing (it is dropped, while remaining untouched in the stored state the
projector reads from); (3) the projected history is exactly the in-order
sequence of surviving `(role, content)` entries — order is preserved;
(4) the projection is what `get_history` returns for a stored checkpoint
holding those raw messages. -/
theorem history_noise_filtering (msgs : List PyVal) :
    (∀ m e, historyStep m = Except.ok (some e) →
      ∀ ind ∈ errorIndicators,
        occursStr ind (lowerStr (pyStr e.2)) = false) ∧
    (∀ (d : List (String × PyVal)) (s : String),
      pyGet d "content" = some (.pstr s) →
      occursStr "quota exceeded" s = true →
      historyStep (.pdict d) = .ok none) ∧
    (∀ rs, exMapM historyStep msgs = .ok rs →
      projectHistory msgs = .ok (rs.filterMap id)) ∧
    (∀ db cfg tpl d cvd ms h,
      getTuple db cfg = .ok (some tpl) → tpl.checkpoint = .pdict d →
      pyGetD d "channel_values" (.pdict []) = .pdict cvd →
      pyGetD cvd "messages" (.plist []) = .plist ms →
      projectHistory ms = .ok h → getHistory db cfg = h) := by
  refine ⟨fun m e h => historyStep_some h, ?pdrop, ?porder, ?pwire⟩
  · intro d s hc hocc
    have hcd : pyGetD d "content" (.pstr "") = .pstr s := by
      unfold pyGetD
      rw [hc]
      rfl
    have hne : (s == "") = false := by
      cases hs0 : (s == "") with
      | false => rfl
      | true =>
          have hs1 : s = "" := by simpa using hs0
          rw [hs1] at hocc
          exact absurd hocc (by decide)
    have hnc : ∀ role, noiseCheck role (.pstr s) = none := by
      intro role
      unfold noiseCheck
      rw [if_pos ?hany]
      case hany =>
        rw [List.any_eq_true]
        refine ⟨"quota exceeded", by decide, ?_⟩
        have hlow : ("quota exceeded" : String).data.map Char.toLower =
            ("quota exceeded" : String).data := by decide
        exact occursStr_lower hlow hocc
    unfold historyStep msgRoleContent
    simp only []
    rw [hcd]
    simp only []
    rw [hne]
    rw [if_neg Bool.false_ne_true]
    rw [hnc]
  · intro rs h
    have h2 := historyLoop_spec msgs rs [] h
    simpa [projectHistory] using h2
  · intro db cfg tpl d cvd ms h hgt hckpt hcv hms hproj
    unfold getHistory
    rw [hgt, ex_bind_ok]
    simp only []
    rw [hckpt]
    simp only []
    rw [hcv]
    simp only []
    rw [hms]
    simp only []
    rw [hproj]

/-- Witness for C9: a three-message thread whose middle message is the
quota-exhausted tool error; the projection keeps the first and third
messages, in order, and `get_history` returns exactly them. -/
theorem history_noise_filtering_witness :
    occursStr "quota exceeded" (lowerStr (pyStr (.pstr "All good"))) =
      false ∧
    historyStep (.pdict [("type", .pstr "ai"),
      ("content", .pstr "Error embedding query: quota exceeded")]) =
      .ok none ∧
    projectHistory [
      .pdict [("type", .pstr "human"), ("content", .pstr "hi")],
      .pdict [("type", .pstr "ai"),
        ("content", .pstr "Error embedding query: quota exceeded")],
      .pdict [("type", .pstr "ai"), ("content", .pstr "All good")]] =
      .ok [("user", .pstr "hi"), ("assistant", .pstr "All good")] ∧
    getHistory
      ⟨[⟨"t1", none, "chatbot", .pdict [], 0, 0, true⟩],
        [⟨"t1", "c1", none,
          .pdict [("channel_values", .pdict [("messages", .plist [
            .pdict [("type", .pstr "human"), ("content", .pstr "hi")],
            .pdict [("type", .pstr "ai"),
              ("content", .pstr "Error embedding query: quota exceeded")],
            .pdict [("type", .pstr "ai"),
              ("content", .pstr "All good")]])])],
          .pdict [], .pint 1, 0⟩], 1⟩
      ⟨some "t1", none, none, none, none⟩ =
      [("user", .pstr "hi"), ("assistant", .pstr "All good")] := by
  have h := history_noise_filtering [
    .pdict [("type", .pstr "human"), ("content", .pstr "hi")],
    .pdict [("type", .pstr "ai"),
      ("content", .pstr "Error embedding query: quota exceeded")],
    .pdict [("type", .pstr "ai"), ("content", .pstr "All good")]]
  refine ⟨h.1 (.pdict [("type", .pstr "ai"),
      ("content", .pstr "All good")]) ("assistant", .pstr "All good") rfl
      "quota exceeded" (by decide),
    h.2.1 [("type", .pstr "ai"),
      ("content", .pstr "Error embedding query: quota exceeded")]
      "Error embedding query: quota exceeded" rfl rfl,
    h.2.2.1 [some ("user", PyVal.pstr "hi"), none,
      some ("assistant", PyVal.pstr "All good")] rfl,
    h.2.2.2
      ⟨[⟨"t1", none, "chatbot", .pdict [], 0, 0, true⟩],
        [⟨"t1", "c1", none,
          .pdict [("channel_values", .pdict [("messages", .plist [
            .pdict [("type", .pstr "human"), ("content", .pstr "hi")],
            .pdict [("type", .pstr "ai"),
              ("content", .pstr "Error embedding query: quota exceeded")],
            .pdict [("type", .pstr "ai"),
              ("content", .pstr "All good")]])])],
          .pdict [], .pint 1, 0⟩], 1⟩
      ⟨some "t1", none, none, none, none⟩
      ⟨⟨some "t1", none, none, none, none⟩,
        .pdict [("channel_values", .pdict [("messages", .plist [
          .pdict [("type", .pstr "human"), ("content", .pstr "hi")],
          .pdict [("type", .pstr "ai"),
            ("content", .pstr "Error embedding query: quota exceeded")],
          .pdict [("type", .pstr "ai"),
            ("content", .pstr "All good")]])]), ("id", .pstr "c1")],
        .pdict []⟩
      [("channel_values", .pdict [("messages", .plist [
        .pdict [("type", .pstr "human"), ("content", .pstr "hi")],
        .pdict [("type", .pstr "ai"),
          ("content", .pstr "Error embedding query: quota exceeded")],
        .pdict [("type", .pstr "ai"),
          ("content", .pstr "All good")]])]), ("id", .pstr "c1")]
      [("messages", .plist [
        .pdict [("type", .pstr "human"), ("content", .pstr "hi")],
        .pdict [("type", .pstr "ai"),
          ("content", .pstr "Error embedding query: quota exceeded")],
        .pdict [("type", .pstr "ai"), ("content", .pstr "All good")]])]
      [.pdict [("type", .pstr "human"), ("content", .pstr "hi")],
        .pdict [("type", .pstr "ai"),
          ("content", .pstr "Error embedding query: quota exceeded")],
        .pdict [("type", .pstr "ai"), ("content", .pstr "All good")]]
      [("user", .pstr "hi"), ("assistant", .pstr "All good")]
      rfl rfl rfl rfl rfl⟩

end Brantech
